import Mathlib

/-!
Verification of the Hashi puzzle core (`src/hashi.rs`): the grid data model,
bridge/island placement validation, the completion predicate, and the seeded
procedural generator.  Machine integers (`u8`, `u16`) are modelled as `Nat`;
the one place where integer truncation is observable (`num_islands as u8`)
is modelled with an explicit `% 256`.  The seeded PRNG (`StdRng`) is
abstracted as an arbitrary oracle stream of naturals, so every theorem
quantified over the oracle covers every seed.
-/

namespace Hashi

/-- Grid coordinate (Rust `Position`; `u8` fields modelled as `Nat`). -/
structure Position where
  x : Nat
  y : Nat
deriving DecidableEq

/-- Rust `derive(Ord)` on `Position`: lexicographic on `x`, then `y`. -/
def Position.ltb (a b : Position) : Bool :=
  decide (a.x < b.x ∨ (a.x = b.x ∧ a.y < b.y))

/-- Rust `BridgeType`. -/
inductive BridgeType where
  | Single
  | Double
deriving DecidableEq

/-- Rust `BridgeDirection`. -/
inductive BridgeDirection where
  | Down
  | Right
deriving DecidableEq

/-- Rust `derive(Ord)` on `BridgeDirection`: `Down < Right`. -/
def BridgeDirection.ltb (a b : BridgeDirection) : Bool :=
  decide (a = BridgeDirection.Down ∧ b = BridgeDirection.Right)

/-- Rust `BridgeLine`; the Rust field `end` is called `stop` here because
`end` is a Lean keyword. -/
structure BridgeLine where
  start : Position
  stop : Position
  direction : BridgeDirection
deriving DecidableEq

/-- Rust `derive(Ord)` on `BridgeLine`: lexicographic on `start`, `end`
(`stop`), `direction`. -/
def BridgeLine.ltb (a b : BridgeLine) : Bool :=
  Position.ltb a.start b.start ||
    (decide (a.start = b.start) &&
      (Position.ltb a.stop b.stop ||
        (decide (a.stop = b.stop) && BridgeDirection.ltb a.direction b.direction)))

/-- Rust `HashiError`. -/
inductive HashiError where
  | Size
  | OutOfBounds (position : Position)
  | Overwrite (position : Position)
  | DiagonalBridge
  | BridgeLengthZero
  | UnconnectedBridge (line : BridgeLine) (position : Position)
deriving DecidableEq

/-- Rust `Island`. -/
structure Island where
  required_bridges : Nat
deriving DecidableEq

/-- Lookup in an association list, modelling `BTreeMap::get`. -/
def mapGet [DecidableEq κ] (l : List (κ × α)) (k : κ) : Option α :=
  (l.find? (fun e => decide (e.1 = k))).map Prod.snd

/-- Insertion into a key-sorted association list, modelling `BTreeMap::insert`
(replaces the value when the key is already present, otherwise inserts at the
sorted position). -/
def insertSorted [DecidableEq κ] (lt : κ → κ → Bool) (k : κ) (v : α) :
    List (κ × α) → List (κ × α)
  | [] => [(k, v)]
  | e :: rest =>
    if lt k e.1 then (k, v) :: e :: rest
    else if e.1 = k then (k, v) :: rest
    else e :: insertSorted lt k v rest

/-- Removal, modelling `BTreeMap::remove`. -/
def mapRemove [DecidableEq κ] (l : List (κ × α)) (k : κ) : List (κ × α) :=
  l.eraseP (fun e => decide (e.1 = k))

/-- Rust `BridgeLine::new`: reject diagonal and zero-length pairs, then
normalize so `start` is the smaller endpoint along the shared axis. -/
def BridgeLine.new (start stop : Position) : Except HashiError BridgeLine :=
  if start.x ≠ stop.x ∧ start.y ≠ stop.y then .error .DiagonalBridge
  else if start = stop then .error .BridgeLengthZero
  else if start.x = stop.x then
    if start.y > stop.y then
      .ok { start := stop, stop := start, direction := .Down }
    else
      .ok { start := start, stop := stop, direction := .Down }
  else
    if start.x > stop.x then
      .ok { start := stop, stop := start, direction := .Right }
    else
      .ok { start := start, stop := stop, direction := .Right }

/-- Rust `BridgeLine::intersects`: crossing point of a vertical and a
horizontal line, `none` for same-direction lines or tip-to-tip meetings. -/
def BridgeLine.intersects (a other : BridgeLine) : Option Position :=
  if a.direction = other.direction then none
  else
    let vert := if a.direction = BridgeDirection.Down then a else other
    let horiz := if a.direction = BridgeDirection.Down then other else a
    if horiz.start = vert.start ∨ horiz.start = vert.stop ∨
        horiz.stop = vert.start ∨ horiz.stop = vert.stop then none
    else if vert.start.y ≤ horiz.start.y ∧ horiz.start.y ≤ vert.stop.y then
      if horiz.start.x ≤ vert.start.x ∧ vert.start.x ≤ horiz.stop.x then
        some { x := vert.start.x, y := horiz.start.y }
      else none
    else none

/-- Rust `BridgeLine::crosses`: `position` lies on the segment, endpoints
included. -/
def BridgeLine.crosses (b : BridgeLine) (position : Position) : Bool :=
  decide ((b.start.x = b.stop.x ∧ position.x = b.start.x ∧
      min b.start.y b.stop.y ≤ position.y ∧ position.y ≤ max b.start.y b.stop.y) ∨
    (b.start.y = b.stop.y ∧ position.y = b.start.y ∧
      min b.start.x b.stop.x ≤ position.x ∧ position.x ≤ max b.start.x b.stop.x))

/-- Weight of a bridge: `Single` counts 1, `Double` counts 2. -/
def bridgeWeight : BridgeType → Nat
  | .Single => 1
  | .Double => 2

/-- Rust `HashiGrid` (`BTreeMap`s modelled as key-sorted association lists). -/
structure HashiGrid where
  width : Nat
  height : Nat
  islands : List (Position × Island)
  bridges : List (BridgeLine × BridgeType)
deriving DecidableEq

/-- Rust `HashiGrid::placeholder`. -/
def HashiGrid.placeholder : HashiGrid :=
  { width := 0, height := 0, islands := [], bridges := [] }

/-- Rust `HashiGrid::new`. -/
def HashiGrid.new (width height : Nat) : Except HashiError HashiGrid :=
  if width = 0 ∨ height = 0 then .error .Size
  else .ok { width := width, height := height, islands := [], bridges := [] }

/-- The incident-weight loop that `is_complete` and the generator's
finalization step both inline: total weight of bridges having `p` as an
endpoint. -/
def inlineBridgeCount (bridges : List (BridgeLine × BridgeType)) (p : Position) : Nat :=
  bridges.foldl
    (fun acc bt => if bt.1.start = p ∨ bt.1.stop = p then acc + bridgeWeight bt.2 else acc) 0

/-- Rust `HashiGrid::bridges_ending_at`. -/
def HashiGrid.bridges_ending_at (g : HashiGrid) (p : Position) :
    List (BridgeLine × BridgeType) :=
  g.bridges.filter (fun bt => decide (bt.1.start = p ∨ bt.1.stop = p))

/-- Rust `HashiGrid::count_brdges_ending_at` (sic): sums the weights of the
bridges ending at `p`. -/
def HashiGrid.count_brdges_ending_at (g : HashiGrid) (p : Position) : Nat :=
  (g.bridges_ending_at p).foldl
    (fun acc bt => if bt.1.start = p ∨ bt.1.stop = p then acc + bridgeWeight bt.2 else acc) 0

/-- Rust `HashiGrid::can_add_island`. -/
def HashiGrid.can_add_island (g : HashiGrid) (position : Position) :
    Except HashiError Unit :=
  if g.width ≤ position.x ∨ g.height ≤ position.y then .error (.OutOfBounds position)
  else if (mapGet g.islands position).isSome then .error (.Overwrite position)
  else
    match g.bridges.find? (fun bt => bt.1.crosses position) with
    | some _ => .error (.Overwrite position)
    | none => .ok ()

/-- Rust `HashiGrid::add_island`; `&mut self` is modelled by returning the
updated grid alongside the result (the grid is unchanged on error). -/
def HashiGrid.add_island (g : HashiGrid) (position : Position) :
    HashiGrid × Except HashiError Unit :=
  match g.can_add_island position with
  | .error e => (g, .error e)
  | .ok _ =>
    ({ g with islands := insertSorted Position.ltb position { required_bridges := 0 } g.islands },
      .ok ())

/-- The per-endpoint check of `can_bridge`'s new-entry branch: endpoint must
be an island, and must have spare capacity when its requirement is nonzero. -/
def HashiGrid.endpointCheck (g : HashiGrid) (bridge : BridgeLine) (p : Position) :
    Option HashiError :=
  match mapGet g.islands p with
  | none => some (.UnconnectedBridge bridge p)
  | some island =>
    if island.required_bridges ≠ 0 ∧
        island.required_bridges < g.count_brdges_ending_at p + 1 then
      some (.Overwrite p)
    else none

/-- The per-endpoint capacity check of `can_bridge`'s upgrade branch; the Rust
code `unwrap`s the island lookup there (documented as safe because the bridge
was validated when first added), modelled by a default island with the
uncapped sentinel, which makes the check pass exactly like a missing check. -/
def HashiGrid.capCheck (g : HashiGrid) (p : Position) : Option HashiError :=
  let island := (mapGet g.islands p).getD { required_bridges := 0 }
  if island.required_bridges ≠ 0 ∧
      island.required_bridges < g.count_brdges_ending_at p + 1 then
    some (.Overwrite p)
  else none

/-- The island-crossing scan of `can_bridge`: first island key, in map order,
lying on the bridge's path other than its two endpoints. -/
def HashiGrid.firstCrossedIsland (g : HashiGrid) (bridge : BridgeLine) : Option Position :=
  (g.islands.find? (fun pi =>
      decide (pi.1 ≠ bridge.start) && decide (pi.1 ≠ bridge.stop) && bridge.crosses pi.1)).map
    Prod.fst

/-- The bridge-intersection scan of `can_bridge`: first intersection point with
an existing bridge, in map order. -/
def HashiGrid.firstIntersection (g : HashiGrid) (bridge : BridgeLine) : Option Position :=
  g.bridges.findSome? (fun bt => bridge.intersects bt.1)

/-- Rust `HashiGrid::can_bridge`. -/
def HashiGrid.can_bridge (g : HashiGrid) (bridge : BridgeLine) :
    Except HashiError BridgeType :=
  match mapGet g.bridges bridge with
  | some BridgeType.Double => .error (.Overwrite bridge.start)
  | some BridgeType.Single =>
    match g.capCheck bridge.start with
    | some e => .error e
    | none =>
      match g.capCheck bridge.stop with
      | some e => .error e
      | none => .ok BridgeType.Double
  | none =>
    match g.endpointCheck bridge bridge.start with
    | some e => .error e
    | none =>
      match g.endpointCheck bridge bridge.stop with
      | some e => .error e
      | none =>
        match g.firstCrossedIsland bridge with
        | some p => .error (.Overwrite p)
        | none =>
          match g.firstIntersection bridge with
          | some p => .error (.Overwrite p)
          | none => .ok BridgeType.Single

/-- Rust `HashiGrid::add_bridge`; `&mut self` is modelled by returning the
updated grid alongside the result (the grid is unchanged on error). -/
def HashiGrid.add_bridge (g : HashiGrid) (bridge : BridgeLine) :
    HashiGrid × Except HashiError BridgeType :=
  match g.can_bridge bridge with
  | .error e => (g, .error e)
  | .ok t =>
    ({ g with bridges := insertSorted BridgeLine.ltb bridge t g.bridges }, .ok t)

/-- Rust `HashiGrid::wipe_bridges`. -/
def HashiGrid.wipe_bridges (g : HashiGrid) : HashiGrid :=
  { g with bridges := [] }

/-- Rust `HashiGrid::is_complete`: false if any island still has
`required_bridges == 0`, false if any island's incident weight differs from
its requirement, true otherwise. -/
def HashiGrid.is_complete (g : HashiGrid) : Bool :=
  if g.islands.any (fun pi => pi.2.required_bridges == 0) then false
  else g.islands.all (fun pi => inlineBridgeCount g.bridges pi.1 == pi.2.required_bridges)

/-- The seeded PRNG (`rand::rngs::StdRng`) abstracted as an oracle: an
arbitrary stream of naturals together with a read position.  Theorems that
quantify over `Rng` hold for whatever value sequence the real generator
produces from any seed. -/
structure Rng where
  stream : Nat → Nat
  pos : Nat

/-- Draw the next oracle value. -/
def Rng.next (r : Rng) : Nat × Rng :=
  (r.stream r.pos, { r with pos := r.pos + 1 })

/-- Model of `rng.random_range(lo..hi)`: the next oracle value reduced into
`[lo, hi)` (all call sites in the source have `lo < hi`). -/
def randomRange (lo hi : Nat) (r : Rng) : Nat × Rng :=
  (lo + r.next.1 % (hi - lo), r.next.2)

/-- Model of the boolean outcome of an `rng.random::<f64>()` threshold
comparison (used with 0.6 in the loop-edge pass and 0.3 in the doubling
pass): an arbitrary oracle-driven boolean. -/
def randBool (r : Rng) : Bool × Rng :=
  (r.next.1 % 2 == 1, r.next.2)

/-- The generator's island target:
`((width as u16 * height as u16) / 5).max(8) as u8` — the `as u8` cast
truncates modulo 256. -/
def numIslands (width height : Nat) : Nat :=
  (max (width * height / 5) 8) % 256

/-- One proposal of the growth loop: given the chosen island and the chosen
direction index (0 = Up, 1 = Down, 2 = Left, 3 = Right, with the unreachable
fallback favouring Right), a random in-bounds position strictly beyond the
island along that axis, or `none` when the direction has no room.  The oracle
is only advanced when a draw actually happens, as in the source. -/
def proposePosition (width height : Nat) (pos : Position) (d : Nat) (r : Rng) :
    Option Position × Rng :=
  if d = 0 then
    if pos.y = 0 then (none, r)
    else
      let draw := randomRange 0 pos.y r
      (some { x := pos.x, y := draw.1 }, draw.2)
  else if d = 1 then
    if pos.y ≥ height - 1 then (none, r)
    else
      let draw := randomRange (pos.y + 1) height r
      (some { x := pos.x, y := draw.1 }, draw.2)
  else if d = 2 then
    if pos.x = 0 then (none, r)
    else
      let draw := randomRange 0 pos.x r
      (some { x := draw.1, y := pos.y }, draw.2)
  else
    if pos.x ≥ width - 1 then (none, r)
    else
      let draw := randomRange (pos.x + 1) width r
      (some { x := draw.1, y := pos.y }, draw.2)

/-- One iteration of the growth loop of `_generate` (step 3): pick an
existing island and a direction, speculatively add the proposed island,
bridge it to the chosen island, and roll the island back when the bridge is
rejected.  `.ok` carries the state for the next iteration; `.error`
propagates the `?` on `BridgeLine::new`. -/
def growthBody (width height : Nat) (g : HashiGrid) (r : Rng) :
    Except HashiError (HashiGrid × Rng) :=
  let island_keys := g.islands.map Prod.fst
  let draw1 := randomRange 0 island_keys.length r
  let existing := island_keys.getD draw1.1 { x := 0, y := 0 }
  let draw2 := randomRange 0 4 draw1.2
  let prop := proposePosition width height existing draw2.1 draw2.2
  match prop.1 with
  | none => .ok (g, prop.2)
  | some proposed =>
    match (g.add_island proposed).2 with
    | .error _ => .ok (g, prop.2)
    | .ok _ =>
      let g1 := (g.add_island proposed).1
      match BridgeLine.new existing proposed with
      | .error e => .error e
      | .ok line =>
        match (g1.add_bridge line).2 with
        | .ok _ => .ok ((g1.add_bridge line).1, prop.2)
        | .error _ => .ok ({ g1 with islands := mapRemove g1.islands proposed }, prop.2)

/-- The growth loop of `_generate` (step 3): run `growthBody` until the
island target is reached or the `max_remaining_iterations` fuel runs out. -/
def growthLoop (num_islands width height : Nat) :
    Nat → HashiGrid → Rng → Except HashiError (HashiGrid × Rng)
  | 0, g, r => .ok (g, r)
  | fuel + 1, g, r =>
    if g.islands.length < num_islands then
      match growthBody width height g r with
      | .error e => .error e
      | .ok gr => growthLoop num_islands width height fuel gr.1 gr.2
    else .ok (g, r)

/-- Scan upward from `y` (exclusive) towards 0 for the nearest island at
column `x`. -/
def scanUp (islands : List (Position × Island)) (x : Nat) : Nat → Option Position
  | 0 => none
  | y + 1 =>
    if (mapGet islands { x := x, y := y }).isSome then some { x := x, y := y }
    else scanUp islands x y

/-- Scan downward from `y` (exclusive), `fuel` cells, for the nearest island
at column `x`. -/
def scanDownAux (islands : List (Position × Island)) (x : Nat) :
    Nat → Nat → Option Position
  | 0, _ => none
  | fuel + 1, y =>
    if (mapGet islands { x := x, y := y + 1 }).isSome then some { x := x, y := y + 1 }
    else scanDownAux islands x fuel (y + 1)

/-- Scan leftward from `x` (exclusive) towards 0 for the nearest island at
row `y`. -/
def scanLeft (islands : List (Position × Island)) (y : Nat) : Nat → Option Position
  | 0 => none
  | x + 1 =>
    if (mapGet islands { x := x, y := y }).isSome then some { x := x, y := y }
    else scanLeft islands y x

/-- Scan rightward from `x` (exclusive), `fuel` cells, for the nearest island
at row `y`. -/
def scanRightAux (islands : List (Position × Island)) (y : Nat) :
    Nat → Nat → Option Position
  | 0, _ => none
  | fuel + 1, x =>
    if (mapGet islands { x := x + 1, y := y }).isSome then some { x := x + 1, y := y }
    else scanRightAux islands y fuel (x + 1)

/-- The nearest-island search of the loop-edge pass, by direction index
(0 = Up, 1 = Down, 2 = Left, 3 = Right): the Rust `while` loops visit,
cell by cell, `y-1..0`, `y+1..height-1`, `x-1..0`, `x+1..width-1`. -/
def nearestIsland (islands : List (Position × Island)) (width height : Nat)
    (pos : Position) (d : Nat) : Option Position :=
  if d = 0 then scanUp islands pos.x pos.y
  else if d = 1 then scanDownAux islands pos.x (height - 1 - pos.y) pos.y
  else if d = 2 then scanLeft islands pos.y pos.x
  else scanRightAux islands pos.y (width - 1 - pos.x) pos.x

/-- One direction of the loop-edge pass: find the nearest island, draw the
`chance_of_loop` coin (only when a target exists), and attempt the bridge,
ignoring its result; the `?` on `BridgeLine::new` propagates. -/
def loopEdgeDir (width height : Nat) (pos : Position) (d : Nat) (g : HashiGrid)
    (r : Rng) : Except HashiError (HashiGrid × Rng) :=
  match nearestIsland g.islands width height pos d with
  | none => .ok (g, r)
  | some target =>
    let flip := randBool r
    if flip.1 then .ok (g, flip.2)
    else
      match BridgeLine.new pos target with
      | .error e => .error e
      | .ok line => .ok ((g.add_bridge line).1, flip.2)

/-- The four directions of the loop-edge pass for one island. -/
def loopEdgeDirs (width height : Nat) (pos : Position) :
    List Nat → HashiGrid → Rng → Except HashiError (HashiGrid × Rng)
  | [], g, r => .ok (g, r)
  | d :: ds, g, r =>
    match loopEdgeDir width height pos d g r with
    | .error e => .error e
    | .ok (g2, r2) => loopEdgeDirs width height pos ds g2 r2

/-- The loop-edge pass of `_generate` (step 4), over the island positions
collected at the start of the pass. -/
def loopEdgeIslands (width height : Nat) :
    List Position → HashiGrid → Rng → Except HashiError (HashiGrid × Rng)
  | [], g, r => .ok (g, r)
  | p :: ps, g, r =>
    match loopEdgeDirs width height p [0, 1, 2, 3] g r with
    | .error e => .error e
    | .ok (g2, r2) => loopEdgeIslands width height ps g2 r2

/-- The doubling pass's collection step: among the current bridges, in map
order, each `Single` draws the 0.3 coin (short-circuit: no draw for a
`Double`) and is kept when the coin succeeds. -/
def collectDoubles : List (BridgeLine × BridgeType) → Rng → List BridgeLine × Rng
  | [], r => ([], r)
  | bt :: rest, r =>
    if bt.2 = BridgeType.Single then
      let flag := randBool r
      let tail := collectDoubles rest flag.2
      (if flag.1 then bt.1 :: tail.1 else tail.1, tail.2)
    else collectDoubles rest r

/-- Fold `add_bridge` over a list of lines, ignoring each result (the
doubling pass's application step, and the shape of any player call
sequence). -/
def addBridgeSeq : HashiGrid → List BridgeLine → HashiGrid
  | g, [] => g
  | g, line :: rest => addBridgeSeq (g.add_bridge line).1 rest

/-- The finalization step of `_generate` (step 6): every island's
`required_bridges` becomes its incident bridge weight in the final bridge
set (the Rust code loops over the collected island keys and `get_mut`s each
one, which is this pointwise map). -/
def finalize (g : HashiGrid) : HashiGrid :=
  { g with
    islands := g.islands.map (fun pi =>
      (pi.1, { required_bridges := inlineBridgeCount g.bridges pi.1 })) }

/-- Rust `HashiGrid::_generate`. -/
def HashiGrid._generate (width height : Nat) (rng : Rng) :
    Except HashiError HashiGrid :=
  match HashiGrid.new width height with
  | .error e => .error e
  | .ok grid =>
    let num_islands := numIslands width height
    let d1 := randomRange 0 width rng
    let d2 := randomRange 0 height d1.2
    let position : Position := { x := d1.1, y := d2.1 }
    match (grid.add_island position).2 with
    | .error e => .error e
    | .ok _ =>
      match growthLoop num_islands width height (num_islands * 100)
          (grid.add_island position).1 d2.2 with
      | .error e => .error e
      | .ok gr =>
        match loopEdgeIslands width height (gr.1.islands.map Prod.fst) gr.1 gr.2 with
        | .error e => .error e
        | .ok gr2 =>
          let cd := collectDoubles gr2.1.bridges gr2.2
          .ok (finalize (addBridgeSeq gr2.1 cd.1))

/-- Rust `HashiGrid::generate_with_seed` seeds a `StdRng` from the 64-bit
seed and delegates to `_generate`; the PRNG is abstracted as the oracle
`rng`, so quantifying over `rng` covers every seed. -/
def HashiGrid.generate_with_seed (width height : Nat) (rng : Rng) :
    Except HashiError HashiGrid :=
  HashiGrid._generate width height rng

/-- Every island's incident weight stays within its nonzero requirement (grid
invariant 5 of the spec). -/
def capacityOk (g : HashiGrid) : Bool :=
  g.islands.all (fun pi =>
    pi.2.required_bridges == 0 ||
      decide (inlineBridgeCount g.bridges pi.1 ≤ pi.2.required_bridges))

/-- The position `p` holds an island whose nonzero requirement leaves no room
for one more bridge end (the capacity condition of `can_bridge`). -/
def atCapacity (g : HashiGrid) (p : Position) : Bool :=
  match mapGet g.islands p with
  | some island =>
    decide (island.required_bridges ≠ 0 ∧
      island.required_bridges < g.count_brdges_ending_at p + 1)
  | none => false

/-- No bridge passes over an island other than its own two endpoints (grid
invariant 2 of the spec). -/
def noIslandCross (g : HashiGrid) : Bool :=
  g.bridges.all (fun bt => g.islands.all (fun pi =>
    decide (pi.1 = bt.1.start) || decide (pi.1 = bt.1.stop) || !(bt.1.crosses pi.1)))

/-- All ordered pairs drawn from distinct positions of the list satisfy `f`. -/
def pairwiseB (f : α → α → Bool) : List α → Bool
  | [] => true
  | x :: xs => xs.all (f x) && pairwiseB f xs

/-- Two stored bridges do not intersect (by the code's `intersects`, which is
`none` for shared endpoints and for parallel lines). -/
def interFree (a b : BridgeLine × BridgeType) : Bool :=
  decide (a.1.intersects b.1 = none)

/-- No two stored bridges intersect off-endpoint (grid invariant 3 of the
spec). -/
def noBridgeCross (g : HashiGrid) : Bool :=
  pairwiseB interFree g.bridges

/-- Keys of the association list are strictly increasing (the `BTreeMap`
shape). -/
def chainLtb (lt : κ → κ → Bool) : List (κ × α) → Bool
  | [] => true
  | [_] => true
  | a :: b :: rest => lt a.1 b.1 && chainLtb lt ((b :: rest) : List (κ × α))

/-- Modelled from the spec: one expansion step of the connectivity traversal
of section 4.3 (also implemented, over a parallel data model, by
`GameState::is_connected` in `main.rs`); `hashi.rs` itself has no such
check.  Keeps the islands already visited or adjacent to a visited one. -/
def expandReach (bridges : List (BridgeLine × BridgeType))
    (keys visited : List Position) : List Position :=
  keys.filter (fun q =>
    visited.any (fun p => decide (p = q)) ||
      visited.any (fun p => bridges.any (fun bt =>
        (decide (bt.1.start = p) && decide (bt.1.stop = q)) ||
          (decide (bt.1.start = q) && decide (bt.1.stop = p)))))

/-- Modelled from the spec: iterate the expansion to a fixpoint (island count
many steps suffice). -/
def reachLoop (bridges : List (BridgeLine × BridgeType)) (keys : List Position) :
    Nat → List Position → List Position
  | 0, visited => visited
  | n + 1, visited => reachLoop bridges keys n (expandReach bridges keys visited)

/-- Modelled from the spec: the island set forms a single connected component
under bridge adjacency, traversing from an arbitrary (first) island. -/
def isConnected (g : HashiGrid) : Bool :=
  match g.islands.map Prod.fst with
  | [] => true
  | p :: rest =>
    (p :: rest).all (fun q =>
      (reachLoop g.bridges (p :: rest) (p :: rest).length [p]).any
        (fun v => decide (v = q)))

/-- Every island of the grid carries a nonzero requirement. -/
def allRequiredNonzero (g : HashiGrid) : Bool :=
  g.islands.all (fun pi => !(pi.2.required_bridges == 0))

/-- The horizontal bridge line `(0,0)–(2,0)`. -/
def pairLineTop : BridgeLine :=
  { start := { x := 0, y := 0 }, stop := { x := 2, y := 0 },
    direction := BridgeDirection.Right }

/-- The horizontal bridge line `(0,2)–(2,2)`. -/
def pairLineBottom : BridgeLine :=
  { start := { x := 0, y := 2 }, stop := { x := 2, y := 2 },
    direction := BridgeDirection.Right }

/-- Two internally balanced island pairs, `(0,0)–(2,0)` and `(0,2)–(2,2)`,
each joined by one `Single` bridge, with no bridge between the pairs: every
island's incident weight equals its requirement of 1, but the island set is
disconnected. -/
def disconnectedPairsGrid : HashiGrid :=
  { width := 3
    height := 3
    islands :=
      [({ x := 0, y := 0 }, { required_bridges := 1 }),
        ({ x := 0, y := 2 }, { required_bridges := 1 }),
        ({ x := 2, y := 0 }, { required_bridges := 1 }),
        ({ x := 2, y := 2 }, { required_bridges := 1 })]
    bridges := [(pairLineTop, BridgeType.Single), (pairLineBottom, BridgeType.Single)] }

/-- The horizontal bridge line `(0,0)–(3,0)`. -/
def cornerLine : BridgeLine :=
  { start := { x := 0, y := 0 }, stop := { x := 3, y := 0 },
    direction := BridgeDirection.Right }

/-- A grid in which island `(0,0)` (requirement 1) is already at capacity via
its single bridge to `(3,0)`. -/
def cappedCornerGrid : HashiGrid :=
  { width := 4
    height := 3
    islands :=
      [({ x := 0, y := 0 }, { required_bridges := 1 }),
        ({ x := 3, y := 0 }, { required_bridges := 1 })]
    bridges := [(cornerLine, BridgeType.Single)] }

/-- A vertical line from the capped island `(0,0)` to the empty cell `(0,2)`. -/
def lineToMissing : BridgeLine :=
  { start := { x := 0, y := 0 }, stop := { x := 0, y := 2 },
    direction := BridgeDirection.Down }

/-- The all-zero oracle stream (a concrete `Rng` instance). -/
def zeroRng : Rng :=
  { stream := fun _ => 0, pos := 0 }

/-- The grid produced by the generator on a 1×1 board: the seed island never
acquires a bridge (no direction has room), so finalization leaves the
sentinel requirement 0. -/
def oneByOneGrid : HashiGrid :=
  { width := 1
    height := 1
    islands := [({ x := 0, y := 0 }, { required_bridges := 0 })]
    bridges := [] }

/-- A grid with a single uncapped island at the origin. -/
def loneIslandGrid : HashiGrid :=
  { width := 3
    height := 3
    islands := [({ x := 0, y := 0 }, { required_bridges := 0 })]
    bridges := [] }

/-- Contribution of one bridge entry to the incident weight at `p`. -/
def lineContribution (p : Position) (bt : BridgeLine × BridgeType) : Nat :=
  if bt.1.start = p ∨ bt.1.stop = p then bridgeWeight bt.2 else 0

set_option maxRecDepth 10000

/-- Unfolding of the `Position` order to arithmetic. -/
theorem posLtb_iff (a b : Position) :
    Position.ltb a b = true ↔ (a.x < b.x ∨ (a.x = b.x ∧ a.y < b.y)) := by
  simp [Position.ltb]

/-- The `Position` order is transitive. -/
theorem posLtb_trans {a b c : Position} (h1 : Position.ltb a b = true)
    (h2 : Position.ltb b c = true) : Position.ltb a c = true := by
  simp only [posLtb_iff] at *
  omega

/-- The `Position` order is irreflexive. -/
theorem posLtb_irrefl (a : Position) : Position.ltb a a = false := by
  simp [Position.ltb]

/-- The `Position` order is total on distinct positions. -/
theorem posLtb_total {a b : Position} (h : a ≠ b) :
    Position.ltb a b = true ∨ Position.ltb b a = true := by
  have hcomp : a.x ≠ b.x ∨ a.y ≠ b.y := by
    by_contra hc
    push_neg at hc
    exact h (by cases a; cases b; simp_all)
  simp only [posLtb_iff]
  omega

/-- The `BridgeDirection` order is transitive. -/
theorem dirLtb_trans :
    ∀ a b c : BridgeDirection, BridgeDirection.ltb a b = true →
      BridgeDirection.ltb b c = true → BridgeDirection.ltb a c = true := by
  intro a b c
  cases a <;> cases b <;> cases c <;> simp [BridgeDirection.ltb]

/-- The `BridgeDirection` order is irreflexive. -/
theorem dirLtb_irrefl :
    ∀ a : BridgeDirection, BridgeDirection.ltb a a = false := by
  intro a
  cases a <;> simp [BridgeDirection.ltb]

/-- The `BridgeDirection` order is total on distinct directions. -/
theorem dirLtb_total :
    ∀ a b : BridgeDirection, a ≠ b →
      BridgeDirection.ltb a b = true ∨ BridgeDirection.ltb b a = true := by
  intro a b
  cases a <;> cases b <;> simp [BridgeDirection.ltb]

/-- Unfolding of the `BridgeLine` order to its lexicographic components. -/
theorem lineLtb_iff (a b : BridgeLine) :
    BridgeLine.ltb a b = true ↔
      (Position.ltb a.start b.start = true ∨
        (a.start = b.start ∧
          (Position.ltb a.stop b.stop = true ∨
            (a.stop = b.stop ∧ BridgeDirection.ltb a.direction b.direction = true)))) := by
  simp [BridgeLine.ltb]

/-- The `BridgeLine` order is transitive. -/
theorem lineLtb_trans {a b c : BridgeLine} (h1 : BridgeLine.ltb a b = true)
    (h2 : BridgeLine.ltb b c = true) : BridgeLine.ltb a c = true := by
  simp only [lineLtb_iff] at *
  rcases h1 with h1 | ⟨e1, h1⟩ <;> rcases h2 with h2 | ⟨e2, h2⟩
  · exact Or.inl (posLtb_trans h1 h2)
  · exact Or.inl (e2 ▸ h1)
  · exact Or.inl (e1 ▸ h2)
  · refine Or.inr ⟨e1.trans e2, ?_⟩
    rcases h1 with h1 | ⟨f1, h1⟩ <;> rcases h2 with h2 | ⟨f2, h2⟩
    · exact Or.inl (posLtb_trans h1 h2)
    · exact Or.inl (f2 ▸ h1)
    · exact Or.inl (f1 ▸ h2)
    · exact Or.inr ⟨f1.trans f2, dirLtb_trans _ _ _ h1 h2⟩

/-- The `BridgeLine` order is irreflexive. -/
theorem lineLtb_irrefl (a : BridgeLine) : BridgeLine.ltb a a = false := by
  simp [BridgeLine.ltb, posLtb_irrefl, dirLtb_irrefl, Position.ltb]

/-- The `BridgeLine` order is total on distinct lines. -/
theorem lineLtb_total {a b : BridgeLine} (h : a ≠ b) :
    BridgeLine.ltb a b = true ∨ BridgeLine.ltb b a = true := by
  by_cases hs : a.start = b.start
  · by_cases he : a.stop = b.stop
    · have hd : a.direction ≠ b.direction := by
        intro hd; apply h; cases a; cases b; simp_all
      rcases dirLtb_total _ _ hd with h1 | h1
      · exact Or.inl ((lineLtb_iff a b).mpr
          (Or.inr ⟨hs, Or.inr ⟨he, h1⟩⟩))
      · exact Or.inr ((lineLtb_iff b a).mpr
          (Or.inr ⟨hs.symm, Or.inr ⟨he.symm, h1⟩⟩))
    · rcases posLtb_total he with h1 | h1
      · exact Or.inl ((lineLtb_iff a b).mpr (Or.inr ⟨hs, Or.inl h1⟩))
      · exact Or.inr ((lineLtb_iff b a).mpr (Or.inr ⟨hs.symm, Or.inl h1⟩))
  · rcases posLtb_total hs with h1 | h1
    · exact Or.inl ((lineLtb_iff a b).mpr (Or.inl h1))
    · exact Or.inr ((lineLtb_iff b a).mpr (Or.inl h1))

/-- Lookup steps over the head of an association list. -/
theorem mapGet_cons [DecidableEq κ] (e : κ × α) (rest : List (κ × α)) (k : κ) :
    mapGet (e :: rest) k = if e.1 = k then some e.2 else mapGet rest k := by
  unfold mapGet
  rw [List.find?_cons]
  by_cases h : e.1 = k <;> simp [h]

/-- Conjunction of booleans, in the form used below. -/
theorem band_true_iff {a b : Bool} : (a && b) = true ↔ a = true ∧ b = true := by
  simp

/-- A successful lookup yields a member entry. -/
theorem mapGet_some_mem [DecidableEq κ] {l : List (κ × α)} {k : κ} {v : α}
    (h : mapGet l k = some v) : (k, v) ∈ l := by
  induction l with
  | nil => simp [mapGet] at h
  | cons e rest ih =>
    rw [mapGet_cons] at h
    by_cases he : e.1 = k
    · rw [if_pos he] at h
      obtain ⟨e1, e2⟩ := e
      cases he
      cases Option.some.inj h
      exact List.mem_cons_self _ _
    · rw [if_neg he] at h
      exact List.mem_cons_of_mem _ (ih h)

/-- Over distinct keys, membership determines the lookup. -/
theorem mapGet_eq_some_of_mem [DecidableEq κ] {l : List (κ × α)}
    (hnd : (l.map Prod.fst).Nodup) {k : κ} {v : α} (hm : (k, v) ∈ l) :
    mapGet l k = some v := by
  induction l with
  | nil => cases hm
  | cons e rest ih =>
    rw [List.map_cons, List.nodup_cons] at hnd
    rw [mapGet_cons]
    rcases List.mem_cons.mp hm with he | hm2
    · rw [if_pos (by rw [← he])]
      rw [← he]
    · have hek : e.1 ≠ k := by
        intro h
        exact hnd.1 (h ▸ List.mem_map_of_mem Prod.fst hm2)
      rw [if_neg hek]
      exact ih hnd.2 hm2

/-- Lookup after insertion: the inserted key maps to the new value, other
keys are untouched. -/
theorem mapGet_insertSorted [DecidableEq κ] (lt : κ → κ → Bool) (k : κ) (v : α)
    (l : List (κ × α)) (q : κ) :
    mapGet (insertSorted lt k v l) q = if q = k then some v else mapGet l q := by
  induction l with
  | nil =>
    unfold insertSorted
    rw [mapGet_cons]
    by_cases h : q = k
    · rw [if_pos h.symm, if_pos h]
    · rw [if_neg (fun he : k = q => h he.symm), if_neg h]
  | cons e rest ih =>
    unfold insertSorted
    by_cases h1 : lt k e.1 = true
    · rw [if_pos h1, mapGet_cons]
      by_cases h : q = k
      · subst h; simp
      · simp [h, Ne.symm h]
    · rw [if_neg h1]
      by_cases h2 : e.1 = k
      · rw [if_pos h2, mapGet_cons, mapGet_cons]
        by_cases h : q = k
        · subst h; simp
        · simp [h, Ne.symm h, h2]
      · rw [if_neg h2, mapGet_cons, ih, mapGet_cons]
        by_cases h : q = k
        · subst h
          simp [h2]
        · simp [h]

/-- Entries of an insertion are the new entry or old entries. -/
theorem mem_insertSorted [DecidableEq κ] (lt : κ → κ → Bool) (k : κ) (v : α)
    {l : List (κ × α)} {e : κ × α} (h : e ∈ insertSorted lt k v l) :
    e = (k, v) ∨ e ∈ l := by
  induction l with
  | nil =>
    unfold insertSorted at h
    rcases List.mem_singleton.mp h with h2
    exact Or.inl h2
  | cons f rest ih =>
    unfold insertSorted at h
    by_cases h1 : lt k f.1 = true
    · rw [if_pos h1] at h
      rcases List.mem_cons.mp h with h2 | h2
      · exact Or.inl h2
      · exact Or.inr h2
    · rw [if_neg h1] at h
      by_cases h2 : f.1 = k
      · rw [if_pos h2] at h
        rcases List.mem_cons.mp h with h3 | h3
        · exact Or.inl h3
        · exact Or.inr (List.mem_cons_of_mem _ h3)
      · rw [if_neg h2] at h
        rcases List.mem_cons.mp h with h3 | h3
        · exact Or.inr (h3 ▸ List.mem_cons_self f rest)
        · rcases ih h3 with h4 | h4
          · exact Or.inl h4
          · exact Or.inr (List.mem_cons_of_mem _ h4)

/-- Insertion grows the list by at most one entry. -/
theorem length_insertSorted [DecidableEq κ] (lt : κ → κ → Bool) (k : κ) (v : α)
    (l : List (κ × α)) :
    (insertSorted lt k v l).length ≤ l.length + 1 := by
  induction l with
  | nil => simp [insertSorted]
  | cons f rest ih =>
    unfold insertSorted
    by_cases h1 : lt k f.1 = true
    · simp [h1]
    · rw [if_neg h1]
      by_cases h2 : f.1 = k
      · simp [h2]
      · rw [if_neg h2]
        simpa using Nat.succ_le_succ ih

/-- Unfolding of the sortedness chain over two consecutive entries. -/
theorem chainLtb_cons_cons (lt : κ → κ → Bool) (a b : κ × α) (l : List (κ × α)) :
    chainLtb lt (a :: b :: l) = (lt a.1 b.1 && chainLtb lt (b :: l)) := rfl

/-- A chain-sorted tail. -/
theorem chainLtb_tail (lt : κ → κ → Bool) (e : κ × α) {l : List (κ × α)}
    (h : chainLtb lt (e :: l) = true) : chainLtb lt l = true := by
  cases l with
  | nil => rfl
  | cons f rest =>
    rw [chainLtb_cons_cons, band_true_iff] at h
    exact h.2

/-- In a chain-sorted list the head key is below every later key. -/
theorem chainLtb_head_lt (lt : κ → κ → Bool)
    (htrans : ∀ {x y z : κ}, lt x y = true → lt y z = true → lt x z = true)
    (e : κ × α) {l : List (κ × α)} (h : chainLtb lt (e :: l) = true) :
    ∀ f ∈ l, lt e.1 f.1 = true := by
  induction l generalizing e with
  | nil => intro f hf; cases hf
  | cons g rest ih =>
    have h1 : lt e.1 g.1 = true := by
      rw [chainLtb_cons_cons, band_true_iff] at h
      exact h.1
    intro f hf
    rcases List.mem_cons.mp hf with rfl | hf2
    · exact h1
    · exact htrans h1 (ih g (chainLtb_tail lt e h) f hf2)

/-- Chain-sorted association lists have distinct keys. -/
theorem chainLtb_nodup (lt : κ → κ → Bool)
    (htrans : ∀ {x y z : κ}, lt x y = true → lt y z = true → lt x z = true)
    (hirr : ∀ x : κ, lt x x = false)
    {l : List (κ × α)} (h : chainLtb lt l = true) :
    (l.map Prod.fst).Nodup := by
  induction l with
  | nil => simp
  | cons e rest ih =>
    rw [List.map_cons, List.nodup_cons]
    refine ⟨?_, ih (chainLtb_tail lt e h)⟩
    intro hmem
    obtain ⟨f, hf, hfe⟩ := List.mem_map.mp hmem
    have := chainLtb_head_lt lt htrans e h f hf
    rw [hfe] at this
    rw [hirr e.1] at this
    cases this

/-- Insertion preserves chain-sortedness. -/
theorem chainLtb_insertSorted [DecidableEq κ] (lt : κ → κ → Bool)
    (htotal : ∀ {x y : κ}, x ≠ y → lt x y = true ∨ lt y x = true)
    (k : κ) (v : α) {l : List (κ × α)} (h : chainLtb lt l = true) :
    chainLtb lt (insertSorted lt k v l) = true := by
  induction l with
  | nil => rfl
  | cons e rest ih =>
    unfold insertSorted
    by_cases h1 : lt k e.1 = true
    · rw [if_pos h1, chainLtb_cons_cons, band_true_iff]
      exact ⟨h1, h⟩
    · rw [if_neg h1]
      by_cases h2 : e.1 = k
      · rw [if_pos h2]
        cases rest with
        | nil => rfl
        | cons f rest2 =>
          rw [chainLtb_cons_cons, band_true_iff] at h
          rw [chainLtb_cons_cons, band_true_iff]
          exact ⟨by rw [← h2]; exact h.1, h.2⟩
      · rw [if_neg h2]
        have hek : lt e.1 k = true := by
          rcases htotal (fun he : e.1 = k => h2 he) with hh | hh
          · exact hh
          · exact absurd hh h1
        have hrest := ih (chainLtb_tail lt e h)
        cases rest with
        | nil =>
          unfold insertSorted
          rw [chainLtb_cons_cons, band_true_iff]
          exact ⟨hek, rfl⟩
        | cons f rest2 =>
          unfold insertSorted at hrest ⊢
          by_cases h3 : lt k f.1 = true
          · rw [if_pos h3] at hrest ⊢
            rw [chainLtb_cons_cons, band_true_iff]
            exact ⟨hek, hrest⟩
          · rw [if_neg h3] at hrest ⊢
            by_cases h4 : f.1 = k
            · rw [if_pos h4] at hrest ⊢
              rw [chainLtb_cons_cons, band_true_iff]
              exact ⟨hek, hrest⟩
            · rw [if_neg h4] at hrest ⊢
              rw [chainLtb_cons_cons, band_true_iff] at h ⊢
              exact ⟨h.1, hrest⟩

/-- The incident-weight fold equals a sum of per-entry contributions. -/
theorem foldlWeight_eq (p : Position) (l : List (BridgeLine × BridgeType)) (init : Nat) :
    l.foldl
        (fun acc bt => if bt.1.start = p ∨ bt.1.stop = p then acc + bridgeWeight bt.2 else acc)
        init =
      init + (l.map (lineContribution p)).sum := by
  induction l generalizing init with
  | nil => simp
  | cons bt rest ih =>
    rw [List.foldl_cons, List.map_cons, List.sum_cons, ih]
    unfold lineContribution
    by_cases h : bt.1.start = p ∨ bt.1.stop = p
    · rw [if_pos h, if_pos h]
      omega
    · rw [if_neg h, if_neg h]
      omega

/-- The incident-weight loop as a sum. -/
theorem inlineBridgeCount_eq_sum (bridges : List (BridgeLine × BridgeType)) (p : Position) :
    inlineBridgeCount bridges p = (bridges.map (lineContribution p)).sum := by
  unfold inlineBridgeCount
  rw [foldlWeight_eq, Nat.zero_add]

/-- `count_brdges_ending_at` (filter, then re-check and sum) computes the
same incident weight as the inlined loop. -/
theorem count_brdges_eq (g : HashiGrid) (p : Position) :
    g.count_brdges_ending_at p = inlineBridgeCount g.bridges p := by
  unfold HashiGrid.count_brdges_ending_at HashiGrid.bridges_ending_at
  rw [foldlWeight_eq, Nat.zero_add, inlineBridgeCount_eq_sum]
  induction g.bridges with
  | nil => rfl
  | cons bt rest ih =>
    by_cases h : bt.1.start = p ∨ bt.1.stop = p
    · rw [List.filter_cons_of_pos (by simpa using h), List.map_cons, List.map_cons,
        List.sum_cons, List.sum_cons, ih]
    · rw [List.filter_cons_of_neg (by simpa using h), List.map_cons, List.sum_cons, ih]
      have : lineContribution p bt = 0 := by
        unfold lineContribution
        rw [if_neg h]
      omega

/-- Inserting a fresh key adds exactly its contribution to any entry sum. -/
theorem sum_insertSorted_notmem [DecidableEq κ] (lt : κ → κ → Bool) (k : κ) (v : α)
    (f : κ × α → Nat) {l : List (κ × α)} (h : mapGet l k = none) :
    ((insertSorted lt k v l).map f).sum = (l.map f).sum + f (k, v) := by
  induction l with
  | nil => simp [insertSorted]
  | cons e rest ih =>
    rw [mapGet_cons] at h
    by_cases he : e.1 = k
    · rw [if_pos he] at h
      cases h
    · rw [if_neg he] at h
      unfold insertSorted
      by_cases h1 : lt k e.1 = true
      · rw [if_pos h1]
        simp only [List.map_cons, List.sum_cons]
        omega
      · rw [if_neg h1, if_neg he]
        simp only [List.map_cons, List.sum_cons, ih h]
        omega

/-- Replacing the value at a present key of a chain-sorted list swaps its
contribution in any entry sum. -/
theorem sum_insertSorted_replace [DecidableEq κ] (lt : κ → κ → Bool)
    (htrans : ∀ {x y z : κ}, lt x y = true → lt y z = true → lt x z = true)
    (hirr : ∀ x : κ, lt x x = false)
    (k : κ) (v : α) (f : κ × α → Nat) {l : List (κ × α)} {w : α}
    (hsorted : chainLtb lt l = true) (hget : mapGet l k = some w) :
    ((insertSorted lt k v l).map f).sum + f (k, w) = (l.map f).sum + f (k, v) := by
  induction l with
  | nil => simp [mapGet] at hget
  | cons e rest ih =>
    rw [mapGet_cons] at hget
    by_cases he : e.1 = k
    · rw [if_pos he] at hget
      obtain ⟨e1, e2⟩ := e
      cases he
      cases Option.some.inj hget
      unfold insertSorted
      rw [if_neg (by rw [hirr]; simp), if_pos rfl]
      simp only [List.map_cons, List.sum_cons]
      omega
    · rw [if_neg he] at hget
      have hmem : k ∈ rest.map Prod.fst := by
        have := mapGet_some_mem hget
        exact List.mem_map_of_mem Prod.fst this
      have hlt : lt e.1 k = true := by
        obtain ⟨g, hg, hgk⟩ := List.mem_map.mp hmem
        have := chainLtb_head_lt lt @htrans e hsorted g hg
        rw [hgk] at this
        exact this
      have hnlt : ¬ lt k e.1 = true := by
        intro hc
        have := htrans hc hlt
        rw [hirr] at this
        cases this
      unfold insertSorted
      rw [if_neg hnlt, if_neg he]
      simp only [List.map_cons, List.sum_cons]
      have := ih (chainLtb_tail lt e hsorted) hget
      omega

/-- A bridge addition never touches the island map. -/
theorem add_bridge_islands (g : HashiGrid) (line : BridgeLine) :
    ((g.add_bridge line).1).islands = g.islands := by
  unfold HashiGrid.add_bridge
  cases g.can_bridge line <;> rfl

/-- A rejected bridge addition returns the grid unchanged. -/
theorem add_bridge_error_unchanged (g : HashiGrid) (line : BridgeLine)
    (e : HashiError) (h : (g.add_bridge line).2 = .error e) :
    (g.add_bridge line).1 = g := by
  unfold HashiGrid.add_bridge at h ⊢
  cases hc : g.can_bridge line <;> simp [hc] at h ⊢

/-- A rejected island addition returns the grid unchanged. -/
theorem add_island_error_unchanged (g : HashiGrid) (p : Position)
    (e : HashiError) (h : (g.add_island p).2 = .error e) :
    (g.add_island p).1 = g := by
  unfold HashiGrid.add_island at h ⊢
  cases hc : g.can_add_island p <;> simp [hc] at h ⊢

/-- Unfolding of a rejected `add_bridge`. -/
theorem add_bridge_eq_error {g : HashiGrid} {line : BridgeLine} {e : HashiError}
    (h : g.can_bridge line = .error e) : g.add_bridge line = (g, .error e) := by
  unfold HashiGrid.add_bridge
  rw [h]

/-- Unfolding of an accepted `add_bridge`. -/
theorem add_bridge_eq_ok {g : HashiGrid} {line : BridgeLine} {t : BridgeType}
    (h : g.can_bridge line = .ok t) :
    g.add_bridge line =
      ({ g with bridges := insertSorted BridgeLine.ltb line t g.bridges }, .ok t) := by
  unfold HashiGrid.add_bridge
  rw [h]

/-- Inversion of `can_bridge` succeeding with a new `Single` bridge: the line
was absent and every check of the new-entry branch passed. -/
theorem can_bridge_ok_single_inv {g : HashiGrid} {line : BridgeLine}
    (h : g.can_bridge line = .ok BridgeType.Single) :
    mapGet g.bridges line = none ∧
      g.endpointCheck line line.start = none ∧
      g.endpointCheck line line.stop = none ∧
      g.firstCrossedIsland line = none ∧
      g.firstIntersection line = none := by
  unfold HashiGrid.can_bridge at h
  split at h
  · exact Except.noConfusion h
  · split at h
    · exact Except.noConfusion h
    · split at h
      · exact Except.noConfusion h
      · simp at h
  · rename_i hm
    split at h
    · exact Except.noConfusion h
    · rename_i h1
      split at h
      · exact Except.noConfusion h
      · rename_i h2
        split at h
        · exact Except.noConfusion h
        · rename_i h3
          split at h
          · exact Except.noConfusion h
          · rename_i h4
            exact ⟨hm, h1, h2, h3, h4⟩

/-- Inversion of `can_bridge` succeeding with an upgrade to `Double`: the
line was present as a `Single` and both capacity checks passed. -/
theorem can_bridge_ok_double_inv {g : HashiGrid} {line : BridgeLine}
    (h : g.can_bridge line = .ok BridgeType.Double) :
    mapGet g.bridges line = some BridgeType.Single ∧
      g.capCheck line.start = none ∧ g.capCheck line.stop = none := by
  unfold HashiGrid.can_bridge at h
  split at h
  · exact Except.noConfusion h
  · rename_i hm
    split at h
    · exact Except.noConfusion h
    · rename_i h1
      split at h
      · exact Except.noConfusion h
      · rename_i h2
        exact ⟨hm, h1, h2⟩
  · split at h
    · exact Except.noConfusion h
    · split at h
      · exact Except.noConfusion h
      · split at h
        · exact Except.noConfusion h
        · split at h
          · exact Except.noConfusion h
          · simp at h

/-- On a missing endpoint, the per-endpoint check reports the unconnected
bridge. -/
theorem endpointCheck_missing (g : HashiGrid) (b : BridgeLine) (p : Position)
    (h : mapGet g.islands p = none) :
    g.endpointCheck b p = some (.UnconnectedBridge b p) := by
  simp [HashiGrid.endpointCheck, h]

/-- On a present endpoint, the per-endpoint check reduces to the capacity
condition. -/
theorem endpointCheck_present (g : HashiGrid) (b : BridgeLine) (p : Position)
    (hp : (mapGet g.islands p).isSome = true) :
    g.endpointCheck b p = if atCapacity g p then some (.Overwrite p) else none := by
  obtain ⟨island, h⟩ := Option.isSome_iff_exists.mp hp
  simp only [HashiGrid.endpointCheck, atCapacity, h]
  by_cases hc : island.required_bridges ≠ 0 ∧
      island.required_bridges < g.count_brdges_ending_at p + 1 <;>
    simp [hc]

/-- The upgrade-branch capacity check agrees with the per-endpoint capacity
condition on a present endpoint. -/
theorem capCheck_present (g : HashiGrid) (p : Position)
    (hp : (mapGet g.islands p).isSome = true) :
    g.capCheck p = if atCapacity g p then some (.Overwrite p) else none := by
  obtain ⟨island, h⟩ := Option.isSome_iff_exists.mp hp
  simp only [HashiGrid.capCheck, atCapacity, h, Option.getD_some]
  by_cases hc : island.required_bridges ≠ 0 ∧
      island.required_bridges < g.count_brdges_ending_at p + 1 <;>
    simp [hc]

/-- A passing per-endpoint check on a present island bounds the incident
weight. -/
theorem endpointCheck_none_cap {g : HashiGrid} {line : BridgeLine} {p : Position}
    {island : Island} (hch : g.endpointCheck line p = none)
    (hisl : mapGet g.islands p = some island)
    (hne : island.required_bridges ≠ 0) :
    inlineBridgeCount g.bridges p + 1 ≤ island.required_bridges := by
  simp only [HashiGrid.endpointCheck, hisl] at hch
  by_cases hc : island.required_bridges ≠ 0 ∧
      island.required_bridges < g.count_brdges_ending_at p + 1
  · rw [if_pos hc] at hch
    cases hch
  · rw [← count_brdges_eq]
    omega

/-- A passing upgrade capacity check on a present island bounds the incident
weight. -/
theorem capCheck_none_cap {g : HashiGrid} {p : Position} {island : Island}
    (hch : g.capCheck p = none) (hisl : mapGet g.islands p = some island)
    (hne : island.required_bridges ≠ 0) :
    inlineBridgeCount g.bridges p + 1 ≤ island.required_bridges := by
  simp only [HashiGrid.capCheck, hisl, Option.getD_some] at hch
  by_cases hc : island.required_bridges ≠ 0 ∧
      island.required_bridges < g.count_brdges_ending_at p + 1
  · rw [if_pos hc] at hch
    cases hch
  · rw [← count_brdges_eq]
    omega

/-- The capacity invariant, element-wise. -/
theorem capacityOk_iff (g : HashiGrid) :
    capacityOk g = true ↔
      ∀ pi ∈ g.islands, pi.2.required_bridges ≠ 0 →
        inlineBridgeCount g.bridges pi.1 ≤ pi.2.required_bridges := by
  unfold capacityOk
  rw [List.all_eq_true]
  simp only [Bool.or_eq_true, beq_iff_eq, decide_eq_true_eq]
  constructor <;> intro h pi hpi
  · intro hne
    rcases h pi hpi with h0 | hle
    · exact absurd h0 hne
    · exact hle
  · by_cases h0 : pi.2.required_bridges = 0
    · exact Or.inl h0
    · exact Or.inr (h pi hpi h0)

/-- One `add_bridge` call preserves bridge-map sortedness and the capacity
invariant. -/
theorem add_bridge_capacity_step (g : HashiGrid) (line : BridgeLine)
    (hni : (g.islands.map Prod.fst).Nodup)
    (hs : chainLtb BridgeLine.ltb g.bridges = true)
    (hc : capacityOk g = true) :
    chainLtb BridgeLine.ltb ((g.add_bridge line).1).bridges = true ∧
      capacityOk ((g.add_bridge line).1) = true := by
  cases hcb : g.can_bridge line with
  | error e =>
    rw [add_bridge_eq_error hcb]
    exact ⟨hs, hc⟩
  | ok t =>
    rw [add_bridge_eq_ok hcb]
    refine ⟨chainLtb_insertSorted BridgeLine.ltb
      (fun hxy => lineLtb_total hxy) line t hs, ?_⟩
    rw [capacityOk_iff]
    intro pi hpi hpne
    obtain ⟨p, island⟩ := pi
    have hne : island.required_bridges ≠ 0 := hpne
    have hpig : (p, island) ∈ g.islands := hpi
    have hold : inlineBridgeCount g.bridges p ≤ island.required_bridges :=
      (capacityOk_iff g).mp hc (p, island) hpig hne
    have hisl : mapGet g.islands p = some island := mapGet_eq_some_of_mem hni hpig
    show inlineBridgeCount (insertSorted BridgeLine.ltb line t g.bridges) p ≤
      island.required_bridges
    cases t with
    | Single =>
      obtain ⟨hm, h1, h2, _, _⟩ := can_bridge_ok_single_inv hcb
      rw [inlineBridgeCount_eq_sum,
        sum_insertSorted_notmem BridgeLine.ltb line BridgeType.Single
          (lineContribution p) hm,
        ← inlineBridgeCount_eq_sum]
      by_cases hinc : line.start = p ∨ line.stop = p
      · have hcap : inlineBridgeCount g.bridges p + 1 ≤ island.required_bridges := by
          rcases hinc with he | he
          · exact endpointCheck_none_cap (he ▸ h1) hisl hne
          · exact endpointCheck_none_cap (he ▸ h2) hisl hne
        have hcon : lineContribution p (line, BridgeType.Single) = 1 := by
          unfold lineContribution
          rw [if_pos hinc]
          rfl
        omega
      · have hcon : lineContribution p (line, BridgeType.Single) = 0 := by
          unfold lineContribution
          rw [if_neg hinc]
        omega
    | Double =>
      obtain ⟨hm, h1, h2⟩ := can_bridge_ok_double_inv hcb
      have hsum := sum_insertSorted_replace BridgeLine.ltb
        (fun hab hbc => lineLtb_trans hab hbc) lineLtb_irrefl
        line BridgeType.Double (lineContribution p) hs hm
      rw [inlineBridgeCount_eq_sum]
      rw [inlineBridgeCount_eq_sum] at hold
      by_cases hinc : line.start = p ∨ line.stop = p
      · have hcap : inlineBridgeCount g.bridges p + 1 ≤ island.required_bridges := by
          rcases hinc with he | he
          · exact capCheck_none_cap (he ▸ h1) hisl hne
          · exact capCheck_none_cap (he ▸ h2) hisl hne
        rw [inlineBridgeCount_eq_sum] at hcap
        have hc1 : lineContribution p (line, BridgeType.Single) = 1 := by
          unfold lineContribution
          rw [if_pos hinc]
          rfl
        have hc2 : lineContribution p (line, BridgeType.Double) = 2 := by
          unfold lineContribution
          rw [if_pos hinc]
          rfl
        omega
      · have hc1 : lineContribution p (line, BridgeType.Single) = 0 := by
          unfold lineContribution
          rw [if_neg hinc]
        have hc2 : lineContribution p (line, BridgeType.Double) = 0 := by
          unfold lineContribution
          rw [if_neg hinc]
        omega

/-- A sequence of `add_bridge` calls preserves the capacity invariant. -/
theorem addBridgeSeq_capacity (lines : List BridgeLine) (g : HashiGrid)
    (hni : (g.islands.map Prod.fst).Nodup)
    (hs : chainLtb BridgeLine.ltb g.bridges = true)
    (hc : capacityOk g = true) :
    capacityOk (addBridgeSeq g lines) = true := by
  induction lines generalizing g with
  | nil => exact hc
  | cons l rest ih =>
    unfold addBridgeSeq
    have step := add_bridge_capacity_step g l hni hs hc
    have hni2 : (((g.add_bridge l).1).islands.map Prod.fst).Nodup := by
      rw [add_bridge_islands]
      exact hni
    exact ih _ hni2 step.1 step.2

/-- A new-entry bridge whose endpoints are both islands and at least one of
them full is rejected, naming the first full endpoint in check order. -/
theorem can_bridge_none_cap_fail {g : HashiGrid} {line : BridgeLine}
    (hm : mapGet g.bridges line = none)
    (h1 : (mapGet g.islands line.start).isSome = true)
    (h2 : (mapGet g.islands line.stop).isSome = true)
    (hsc : atCapacity g line.start = true ∨ atCapacity g line.stop = true) :
    g.can_bridge line = .error (.Overwrite
      (if atCapacity g line.start then line.start else line.stop)) := by
  by_cases hs : atCapacity g line.start = true
  · simp [HashiGrid.can_bridge, hm, endpointCheck_present g line line.start h1, hs]
  · have hstop : atCapacity g line.stop = true := by
      rcases hsc with h | h
      · exact absurd h hs
      · exact h
    simp [HashiGrid.can_bridge, hm, endpointCheck_present g line line.start h1,
      endpointCheck_present g line line.stop h2, hs, hstop]

/-- An upgrade on a `Single` bridge whose endpoints are both islands and at
least one of them full is rejected, naming the first full endpoint in check
order. -/
theorem can_bridge_single_cap_fail {g : HashiGrid} {line : BridgeLine}
    (hm : mapGet g.bridges line = some BridgeType.Single)
    (h1 : (mapGet g.islands line.start).isSome = true)
    (h2 : (mapGet g.islands line.stop).isSome = true)
    (hsc : atCapacity g line.start = true ∨ atCapacity g line.stop = true) :
    g.can_bridge line = .error (.Overwrite
      (if atCapacity g line.start then line.start else line.stop)) := by
  by_cases hs : atCapacity g line.start = true
  · simp [HashiGrid.can_bridge, hm, capCheck_present g line.start h1, hs]
  · have hstop : atCapacity g line.stop = true := by
      rcases hsc with h | h
      · exact absurd h hs
      · exact h
    simp [HashiGrid.can_bridge, hm, capCheck_present g line.start h1,
      capCheck_present g line.stop h2, hs, hstop]

/-- A bridge call that would push a full island above its requirement fails
with `Overwrite` at the first full endpoint and leaves the grid unchanged. -/
theorem add_bridge_at_capacity_fails (g : HashiGrid) (line : BridgeLine)
    (h1 : (mapGet g.islands line.start).isSome = true)
    (h2 : (mapGet g.islands line.stop).isSome = true)
    (hnd : mapGet g.bridges line ≠ some BridgeType.Double)
    (p : Position) (hp : p = line.start ∨ p = line.stop)
    (hcap : atCapacity g p = true) :
    (g.add_bridge line).2 = .error (.Overwrite
      (if atCapacity g line.start then line.start else line.stop)) ∧
    (g.add_bridge line).1 = g := by
  have hsc : atCapacity g line.start = true ∨ atCapacity g line.stop = true := by
    rcases hp with rfl | rfl
    · exact Or.inl hcap
    · exact Or.inr hcap
  cases hm : mapGet g.bridges line with
  | none =>
    rw [add_bridge_eq_error (can_bridge_none_cap_fail hm h1 h2 hsc)]
    exact ⟨rfl, rfl⟩
  | some bt =>
    cases bt with
    | Double => exact absurd hm hnd
    | Single =>
      rw [add_bridge_eq_error (can_bridge_single_cap_fail hm h1 h2 hsc)]
      exact ⟨rfl, rfl⟩

/-- C2: from any grid whose bridge map is well-formed (sorted keys) and whose
islands respect their nonzero requirements, no sequence of `add_bridge`
calls can push an island's incident weight above its nonzero
`required_bridges`; and a single call that would do so — its line already
between islands and not yet a `Double` — fails with `Overwrite` naming the
offending (first full, in check order) island and mutates nothing. -/
theorem C2_capacity_monotonicity (g : HashiGrid)
    (hni : (g.islands.map Prod.fst).Nodup)
    (hs : chainLtb BridgeLine.ltb g.bridges = true)
    (hc : capacityOk g = true) :
    (∀ lines : List BridgeLine, capacityOk (addBridgeSeq g lines) = true) ∧
    (∀ line : BridgeLine, ∀ p : Position,
      (p = line.start ∨ p = line.stop) →
      (mapGet g.islands line.start).isSome = true →
      (mapGet g.islands line.stop).isSome = true →
      mapGet g.bridges line ≠ some BridgeType.Double →
      atCapacity g p = true →
      (g.add_bridge line).2 = .error (.Overwrite
        (if atCapacity g line.start then line.start else line.stop)) ∧
      (g.add_bridge line).1 = g) :=
  ⟨fun lines => addBridgeSeq_capacity lines g hni hs hc,
    fun line p hp h1 h2 hnd hcap =>
      add_bridge_at_capacity_fails g line h1 h2 hnd p hp hcap⟩

/-- Witness for C2 on the concrete capped grid: repeating the saturated
bridge keeps the invariant, and the saturating call is rejected in place,
naming the full island `(0,0)`. -/
theorem C2_capacity_monotonicity_witness :
    capacityOk (addBridgeSeq cappedCornerGrid [cornerLine, cornerLine]) = true ∧
    (cappedCornerGrid.add_bridge cornerLine).2 =
      .error (.Overwrite { x := 0, y := 0 }) ∧
    (cappedCornerGrid.add_bridge cornerLine).1 = cappedCornerGrid := by
  have h := C2_capacity_monotonicity cappedCornerGrid (by decide) (by decide) (by decide)
  have h2 := h.2 cornerLine { x := 0, y := 0 } (Or.inl rfl) (by decide) (by decide)
    (by decide) (by decide)
  refine ⟨h.1 [cornerLine, cornerLine], ?_, h2.2⟩
  rw [h2.1, if_pos (by decide)]
  rfl

/-- C10: a grid whose island map is empty — such as `placeholder()` or a
freshly constructed grid — reports itself complete: both loops of
`is_complete` are vacuous. -/
theorem C10_empty_islands_complete (g : HashiGrid) (h : g.islands = []) :
    g.is_complete = true := by
  simp [HashiGrid.is_complete, h]

/-- Witness for C10 at the concrete `placeholder()` grid. -/
theorem C10_empty_islands_complete_witness :
    HashiGrid.placeholder.islands = [] ∧ HashiGrid.placeholder.is_complete = true :=
  ⟨rfl, C10_empty_islands_complete HashiGrid.placeholder rfl⟩

/-- C3: whenever `add_bridge` returns an error, both the bridge map and the
island map are exactly as they were before the call. -/
theorem C3_rejected_add_bridge_preserves_grid (g : HashiGrid) (line : BridgeLine)
    (e : HashiError) (h : (g.add_bridge line).2 = .error e) :
    ((g.add_bridge line).1).bridges = g.bridges ∧
      ((g.add_bridge line).1).islands = g.islands := by
  rw [add_bridge_error_unchanged g line e h]
  exact ⟨rfl, rfl⟩

/-- Witness for C3: adding a bridge with no islands at its endpoints on the
placeholder grid is rejected and leaves both maps unchanged. -/
theorem C3_rejected_add_bridge_preserves_grid_witness :
    ((HashiGrid.placeholder.add_bridge pairLineTop).1).bridges =
        HashiGrid.placeholder.bridges ∧
      ((HashiGrid.placeholder.add_bridge pairLineTop).1).islands =
        HashiGrid.placeholder.islands :=
  C3_rejected_add_bridge_preserves_grid HashiGrid.placeholder pairLineTop
    (.UnconnectedBridge pairLineTop { x := 0, y := 0 }) rfl

/-- C1: `is_complete` checks only the per-island bridge counts; on the
disconnected two-pair grid (all requirements met within each pair, no bridge
between the pairs, not a single connected component) it returns `true`,
while the game rule — stated on the repository's own rules page and by the
spec — demands `false`. -/
theorem C1_disconnected_pairs_reported_complete :
    isConnected disconnectedPairsGrid = false ∧
      disconnectedPairsGrid.is_complete = true :=
  ⟨rfl, rfl⟩

/-- C4 counterexample: on a grid whose island `(0,0)` (requirement 1) is at
capacity, asking for a bridge from `(0,0)` to the empty cell `(0,2)` fails
with `Overwrite{(0,0)}` — the capacity error — although the claim predicts
`UnconnectedBridge` naming the missing endpoint `(0,2)`. -/
theorem C4_counterexample_capacity_masks_missing_endpoint :
    (cappedCornerGrid.add_bridge lineToMissing).2 =
        .error (.Overwrite { x := 0, y := 0 }) ∧
      HashiError.Overwrite { x := 0, y := 0 } ≠
        HashiError.UnconnectedBridge lineToMissing { x := 0, y := 2 } ∧
      mapGet cappedCornerGrid.islands { x := 0, y := 2 } = none :=
  ⟨rfl, by decide, rfl⟩

/-- C4 (amended): for a line not present in the bridge map, `add_bridge`
validates per endpoint in order — existence then capacity for `start`, then
existence then capacity for `stop` — so a missing endpoint yields
`UnconnectedBridge` only when every earlier endpoint passed both its
existence and its capacity check; island-crossing and bridge-intersection
are checked only after both endpoints pass. -/
theorem C4_endpoint_validation_order (g : HashiGrid) (line : BridgeLine)
    (hnew : mapGet g.bridges line = none) :
    (mapGet g.islands line.start = none →
      (g.add_bridge line).2 = .error (.UnconnectedBridge line line.start)) ∧
    ((mapGet g.islands line.start).isSome = true → atCapacity g line.start = true →
      (g.add_bridge line).2 = .error (.Overwrite line.start)) ∧
    ((mapGet g.islands line.start).isSome = true → atCapacity g line.start = false →
      mapGet g.islands line.stop = none →
      (g.add_bridge line).2 = .error (.UnconnectedBridge line line.stop)) ∧
    ((mapGet g.islands line.start).isSome = true → atCapacity g line.start = false →
      (mapGet g.islands line.stop).isSome = true → atCapacity g line.stop = true →
      (g.add_bridge line).2 = .error (.Overwrite line.stop)) := by
  refine ⟨?_, ?_, ?_, ?_⟩
  · intro h
    simp [HashiGrid.add_bridge, HashiGrid.can_bridge, hnew,
      endpointCheck_missing g line line.start h]
  · intro hp hcap
    simp [HashiGrid.add_bridge, HashiGrid.can_bridge, hnew,
      endpointCheck_present g line line.start hp, hcap]
  · intro hp hcap h2
    simp [HashiGrid.add_bridge, HashiGrid.can_bridge, hnew,
      endpointCheck_present g line line.start hp, hcap,
      endpointCheck_missing g line line.stop h2]
  · intro hp hcap hp2 hcap2
    simp [HashiGrid.add_bridge, HashiGrid.can_bridge, hnew,
      endpointCheck_present g line line.start hp, hcap,
      endpointCheck_present g line line.stop hp2, hcap2]

/-- Witness for C4 (amended): with an uncapped island at `(0,0)` and nothing
at `(0,2)`, the missing-endpoint case fires and names `(0,2)`. -/
theorem C4_endpoint_validation_order_witness :
    (loneIslandGrid.add_bridge lineToMissing).2 =
      .error (.UnconnectedBridge lineToMissing { x := 0, y := 2 }) :=
  (C4_endpoint_validation_order loneIslandGrid lineToMissing rfl).2.2.1
    (by decide) (by decide) rfl

/-- Constructing a vertical line upward-ordered: no reordering needed. -/
theorem new_vertical (a b : Position) (hx : a.x = b.x) (hy : a.y < b.y) :
    BridgeLine.new a b = .ok { start := a, stop := b, direction := .Down } := by
  have hne : a ≠ b := by intro h; subst h; omega
  unfold BridgeLine.new
  rw [if_neg (by simp [hx]), if_neg hne, if_pos hx, if_neg (by omega)]

/-- Constructing a vertical line downward-ordered: endpoints are swapped. -/
theorem new_vertical_swap (a b : Position) (hx : a.x = b.x) (hy : b.y < a.y) :
    BridgeLine.new a b = .ok { start := b, stop := a, direction := .Down } := by
  have hne : a ≠ b := by intro h; subst h; omega
  unfold BridgeLine.new
  rw [if_neg (by simp [hx]), if_neg hne, if_pos hx, if_pos (by omega)]

/-- Constructing a horizontal line rightward-ordered: no reordering needed. -/
theorem new_horizontal (a b : Position) (hxne : a.x ≠ b.x) (hy : a.y = b.y)
    (hx : a.x < b.x) :
    BridgeLine.new a b = .ok { start := a, stop := b, direction := .Right } := by
  have hne : a ≠ b := by intro h; subst h; omega
  unfold BridgeLine.new
  rw [if_neg (by simp [hy]), if_neg hne, if_neg hxne, if_neg (by omega)]

/-- Constructing a horizontal line leftward-ordered: endpoints are swapped. -/
theorem new_horizontal_swap (a b : Position) (hxne : a.x ≠ b.x) (hy : a.y = b.y)
    (hx : b.x < a.x) :
    BridgeLine.new a b = .ok { start := b, stop := a, direction := .Right } := by
  have hne : a ≠ b := by intro h; subst h; omega
  unfold BridgeLine.new
  rw [if_neg (by simp [hy]), if_neg hne, if_neg hxne, if_pos (by omega)]

/-- C9: for distinct positions sharing an axis, `BridgeLine::new` succeeds,
is direction-independent (`new(a,b) = new(b,a)`), orders `start` as the
smaller endpoint along the shared axis, and uses direction `Down` for a
shared-x pair and `Right` for a shared-y pair. -/
theorem C9_bridge_line_normalization (a b : Position) (hne : a ≠ b)
    (hshare : a.x = b.x ∨ a.y = b.y) :
    (∃ l : BridgeLine, BridgeLine.new a b = .ok l) ∧
    BridgeLine.new a b = BridgeLine.new b a ∧
    (a.x = b.x →
      BridgeLine.new a b =
        .ok { start := if a.y ≤ b.y then a else b,
              stop := if a.y ≤ b.y then b else a,
              direction := BridgeDirection.Down }) ∧
    (a.y = b.y →
      BridgeLine.new a b =
        .ok { start := if a.x ≤ b.x then a else b,
              stop := if a.x ≤ b.x then b else a,
              direction := BridgeDirection.Right }) := by
  rcases hshare with hx | hy
  · have hyne : a.y ≠ b.y := by
      intro h; apply hne; cases a; cases b; simp_all
    rcases Nat.lt_or_ge a.y b.y with h1 | h1
    · refine ⟨⟨_, new_vertical a b hx h1⟩, ?_, ?_, ?_⟩
      · rw [new_vertical a b hx h1, new_vertical_swap b a hx.symm h1]
      · intro _
        rw [new_vertical a b hx h1, if_pos (le_of_lt h1), if_pos (le_of_lt h1)]
      · intro h; exact absurd h hyne
    · have h2 : b.y < a.y := lt_of_le_of_ne h1 (Ne.symm hyne)
      refine ⟨⟨_, new_vertical_swap a b hx h2⟩, ?_, ?_, ?_⟩
      · rw [new_vertical_swap a b hx h2, new_vertical b a hx.symm h2]
      · intro _
        rw [new_vertical_swap a b hx h2, if_neg (by omega), if_neg (by omega)]
      · intro h; exact absurd h hyne
  · have hxne : a.x ≠ b.x := by
      intro h; apply hne; cases a; cases b; simp_all
    rcases Nat.lt_or_ge a.x b.x with h1 | h1
    · refine ⟨⟨_, new_horizontal a b hxne hy h1⟩, ?_, ?_, ?_⟩
      · rw [new_horizontal a b hxne hy h1,
          new_horizontal_swap b a (Ne.symm hxne) hy.symm h1]
      · intro h; exact absurd h hxne
      · intro _
        rw [new_horizontal a b hxne hy h1, if_pos (le_of_lt h1), if_pos (le_of_lt h1)]
    · have h2 : b.x < a.x := lt_of_le_of_ne h1 (Ne.symm hxne)
      refine ⟨⟨_, new_horizontal_swap a b hxne hy h2⟩, ?_, ?_, ?_⟩
      · rw [new_horizontal_swap a b hxne hy h2,
          new_horizontal b a (Ne.symm hxne) hy.symm h2]
      · intro h; exact absurd h hxne
      · intro _
        rw [new_horizontal_swap a b hxne hy h2, if_neg (by omega), if_neg (by omega)]

/-- Witness for C9 at the concrete pair `(2,5)`, `(2,1)`: construction is
direction-independent. -/
theorem C9_bridge_line_normalization_witness :
    BridgeLine.new { x := 2, y := 5 } { x := 2, y := 1 } =
      BridgeLine.new { x := 2, y := 1 } { x := 2, y := 5 } :=
  (C9_bridge_line_normalization { x := 2, y := 5 } { x := 2, y := 1 }
    (by decide) (Or.inl rfl)).2.1

/-- `BridgeLine::new` succeeds on any axis-aligned pair of distinct positions. -/
theorem new_ok_of_axis {a b : Position}
    (h : (a.x = b.x ∧ a.y ≠ b.y) ∨ (a.y = b.y ∧ a.x ≠ b.x)) :
    ∃ l, BridgeLine.new a b = .ok l := by
  rcases h with ⟨hx, hy⟩ | ⟨hy, hx⟩
  · rcases Nat.lt_or_ge a.y b.y with h1 | h1
    · exact ⟨_, new_vertical a b hx h1⟩
    · exact ⟨_, new_vertical_swap a b hx (lt_of_le_of_ne h1 (Ne.symm hy))⟩
  · rcases Nat.lt_or_ge a.x b.x with h1 | h1
    · exact ⟨_, new_horizontal a b hx hy h1⟩
    · exact ⟨_, new_horizontal_swap a b hx hy (lt_of_le_of_ne h1 (Ne.symm hx))⟩

/-- A growth-loop proposal differs from the chosen island along exactly one
axis, so the connecting line construction cannot fail. -/
theorem proposePosition_some_axis {width height : Nat} {pos : Position} {d : Nat}
    {r : Rng} {q : Position}
    (h : (proposePosition width height pos d r).1 = some q) :
    (pos.x = q.x ∧ pos.y ≠ q.y) ∨ (pos.y = q.y ∧ pos.x ≠ q.x) := by
  unfold proposePosition at h
  by_cases h0 : d = 0
  · rw [if_pos h0] at h
    by_cases hy : pos.y = 0
    · rw [if_pos hy] at h; cases h
    · rw [if_neg hy] at h
      have hq := Option.some.inj h
      left
      rw [← hq]
      refine ⟨rfl, ?_⟩
      show pos.y ≠ (randomRange 0 pos.y r).1
      unfold randomRange
      have := Nat.mod_lt r.next.1 (Nat.pos_of_ne_zero hy)
      simp only [Nat.sub_zero, Nat.zero_add]
      omega
  · rw [if_neg h0] at h
    by_cases h1 : d = 1
    · rw [if_pos h1] at h
      by_cases hy : pos.y ≥ height - 1
      · rw [if_pos hy] at h; cases h
      · rw [if_neg hy] at h
        have hq := Option.some.inj h
        left
        rw [← hq]
        refine ⟨rfl, ?_⟩
        show pos.y ≠ (randomRange (pos.y + 1) height r).1
        unfold randomRange
        omega
    · rw [if_neg h1] at h
      by_cases h2 : d = 2
      · rw [if_pos h2] at h
        by_cases hx : pos.x = 0
        · rw [if_pos hx] at h; cases h
        · rw [if_neg hx] at h
          have hq := Option.some.inj h
          right
          rw [← hq]
          refine ⟨rfl, ?_⟩
          show pos.x ≠ (randomRange 0 pos.x r).1
          unfold randomRange
          have := Nat.mod_lt r.next.1 (Nat.pos_of_ne_zero hx)
          simp only [Nat.sub_zero, Nat.zero_add]
          omega
      · rw [if_neg h2] at h
        by_cases hx : pos.x ≥ width - 1
        · rw [if_pos hx] at h; cases h
        · rw [if_neg hx] at h
          have hq := Option.some.inj h
          right
          rw [← hq]
          refine ⟨rfl, ?_⟩
          show pos.x ≠ (randomRange (pos.x + 1) width r).1
          unfold randomRange
          omega

/-- One growth-loop iteration never propagates an error. -/
theorem growthBody_ok (width height : Nat) (g : HashiGrid) (r : Rng) :
    ∃ gr, growthBody width height g r = .ok gr := by
  simp only [growthBody]
  split
  · exact ⟨_, rfl⟩
  · rename_i proposed hprop
    split
    · exact ⟨_, rfl⟩
    · split
      · rename_i hnew
        exfalso
        obtain ⟨l, hl⟩ := new_ok_of_axis (proposePosition_some_axis hprop)
        rw [hl] at hnew
        cases hnew
      · split
        · exact ⟨_, rfl⟩
        · exact ⟨_, rfl⟩

/-- The growth loop never propagates an error. -/
theorem growthLoop_ok (num width height : Nat) :
    ∀ (fuel : Nat) (g : HashiGrid) (r : Rng),
      ∃ gr, growthLoop num width height fuel g r = .ok gr := by
  intro fuel
  induction fuel with
  | zero => intro g r; exact ⟨(g, r), rfl⟩
  | succ n ih =>
    intro g r
    unfold growthLoop
    by_cases hlen : g.islands.length < num
    · rw [if_pos hlen]
      obtain ⟨gr, hgr⟩ := growthBody_ok width height g r
      rw [hgr]
      exact ih gr.1 gr.2
    · rw [if_neg hlen]
      exact ⟨(g, r), rfl⟩

/-- An upward scan hit is strictly above origin of the scan on the same
column. -/
theorem scanUp_some {islands : List (Position × Island)} {x : Nat} {q : Position} :
    ∀ {n : Nat}, scanUp islands x n = some q → q.x = x ∧ q.y < n := by
  intro n
  induction n with
  | zero => intro h; cases h
  | succ m ih =>
    intro h
    unfold scanUp at h
    by_cases hm : (mapGet islands { x := x, y := m }).isSome = true
    · rw [if_pos hm] at h
      cases Option.some.inj h
      exact ⟨rfl, Nat.lt_succ_self m⟩
    · rw [if_neg hm] at h
      obtain ⟨h1, h2⟩ := ih h
      exact ⟨h1, Nat.lt_succ_of_lt h2⟩

/-- A downward scan hit is strictly below the scan origin on the same
column. -/
theorem scanDownAux_some {islands : List (Position × Island)} {x : Nat} {q : Position} :
    ∀ {fuel y : Nat}, scanDownAux islands x fuel y = some q → q.x = x ∧ y < q.y := by
  intro fuel
  induction fuel with
  | zero => intro y h; cases h
  | succ m ih =>
    intro y h
    unfold scanDownAux at h
    by_cases hm : (mapGet islands { x := x, y := y + 1 }).isSome = true
    · rw [if_pos hm] at h
      cases Option.some.inj h
      exact ⟨rfl, Nat.lt_succ_self y⟩
    · rw [if_neg hm] at h
      obtain ⟨h1, h2⟩ := ih h
      exact ⟨h1, Nat.lt_of_succ_lt h2⟩

/-- A leftward scan hit is strictly before the scan origin on the same
row. -/
theorem scanLeft_some {islands : List (Position × Island)} {y : Nat} {q : Position} :
    ∀ {n : Nat}, scanLeft islands y n = some q → q.y = y ∧ q.x < n := by
  intro n
  induction n with
  | zero => intro h; cases h
  | succ m ih =>
    intro h
    unfold scanLeft at h
    by_cases hm : (mapGet islands { x := m, y := y }).isSome = true
    · rw [if_pos hm] at h
      cases Option.some.inj h
      exact ⟨rfl, Nat.lt_succ_self m⟩
    · rw [if_neg hm] at h
      obtain ⟨h1, h2⟩ := ih h
      exact ⟨h1, Nat.lt_succ_of_lt h2⟩

/-- A rightward scan hit is strictly after the scan origin on the same
row. -/
theorem scanRightAux_some {islands : List (Position × Island)} {y : Nat} {q : Position} :
    ∀ {fuel x : Nat}, scanRightAux islands y fuel x = some q → q.y = y ∧ x < q.x := by
  intro fuel
  induction fuel with
  | zero => intro x h; cases h
  | succ m ih =>
    intro x h
    unfold scanRightAux at h
    by_cases hm : (mapGet islands { x := x + 1, y := y }).isSome = true
    · rw [if_pos hm] at h
      cases Option.some.inj h
      exact ⟨rfl, Nat.lt_succ_self x⟩
    · rw [if_neg hm] at h
      obtain ⟨h1, h2⟩ := ih h
      exact ⟨h1, Nat.lt_of_succ_lt h2⟩

/-- A nearest-island hit shares exactly one axis with the scanning island,
so the loop-edge line construction cannot fail. -/
theorem nearestIsland_axis {islands : List (Position × Island)} {width height : Nat}
    {pos : Position} {d : Nat} {q : Position}
    (h : nearestIsland islands width height pos d = some q) :
    (pos.x = q.x ∧ pos.y ≠ q.y) ∨ (pos.y = q.y ∧ pos.x ≠ q.x) := by
  unfold nearestIsland at h
  by_cases h0 : d = 0
  · rw [if_pos h0] at h
    obtain ⟨h1, h2⟩ := scanUp_some h
    exact Or.inl ⟨h1.symm, by omega⟩
  · rw [if_neg h0] at h
    by_cases h1 : d = 1
    · rw [if_pos h1] at h
      obtain ⟨h2, h3⟩ := scanDownAux_some h
      exact Or.inl ⟨h2.symm, by omega⟩
    · rw [if_neg h1] at h
      by_cases h2 : d = 2
      · rw [if_pos h2] at h
        obtain ⟨h3, h4⟩ := scanLeft_some h
        exact Or.inr ⟨h3.symm, by omega⟩
      · rw [if_neg h2] at h
        obtain ⟨h3, h4⟩ := scanRightAux_some h
        exact Or.inr ⟨h3.symm, by omega⟩

/-- One direction of the loop-edge pass never propagates an error. -/
theorem loopEdgeDir_ok (width height : Nat) (pos : Position) (d : Nat)
    (g : HashiGrid) (r : Rng) :
    ∃ gr, loopEdgeDir width height pos d g r = .ok gr := by
  unfold loopEdgeDir
  split
  · exact ⟨_, rfl⟩
  · rename_i target htarget
    by_cases hf : (randBool r).1 = true
    · rw [if_pos hf]
      exact ⟨_, rfl⟩
    · rw [if_neg hf]
      obtain ⟨l, hl⟩ := new_ok_of_axis (nearestIsland_axis htarget)
      rw [hl]
      exact ⟨_, rfl⟩

/-- The per-island loop-edge pass never propagates an error. -/
theorem loopEdgeDirs_ok (width height : Nat) (pos : Position) :
    ∀ (ds : List Nat) (g : HashiGrid) (r : Rng),
      ∃ gr, loopEdgeDirs width height pos ds g r = .ok gr := by
  intro ds
  induction ds with
  | nil => intro g r; exact ⟨(g, r), rfl⟩
  | cons d rest ih =>
    intro g r
    unfold loopEdgeDirs
    obtain ⟨gr, hgr⟩ := loopEdgeDir_ok width height pos d g r
    rw [hgr]
    exact ih gr.1 gr.2

/-- The loop-edge pass never propagates an error. -/
theorem loopEdgeIslands_ok (width height : Nat) :
    ∀ (ps : List Position) (g : HashiGrid) (r : Rng),
      ∃ gr, loopEdgeIslands width height ps g r = .ok gr := by
  intro ps
  induction ps with
  | nil => intro g r; exact ⟨(g, r), rfl⟩
  | cons p rest ih =>
    intro g r
    unfold loopEdgeIslands
    obtain ⟨gr, hgr⟩ := loopEdgeDirs_ok width height p [0, 1, 2, 3] g r
    rw [hgr]
    exact ih gr.1 gr.2

/-- Placing the seed island on the freshly constructed empty grid always
succeeds: the drawn position is in bounds and nothing occupies the grid. -/
theorem first_island_ok (width height : Nat) (hw : 1 ≤ width) (hh : 1 ≤ height)
    (rng : Rng) :
    (({ width := width, height := height, islands := [], bridges := [] } :
        HashiGrid).add_island
      { x := (randomRange 0 width rng).1, y := (randomRange 0 height (randomRange 0 width rng).2).1 }).2 = .ok () := by
  unfold HashiGrid.add_island HashiGrid.can_add_island
  rw [if_neg, if_neg]
  · rfl
  · simp [mapGet]
  · unfold randomRange
    simp only [Nat.sub_zero, Nat.zero_add]
    push_neg
    constructor
    · exact Nat.mod_lt _ (by omega)
    · exact Nat.mod_lt _ (by omega)

/-- C8: the generator fails exactly on a zero dimension, with error `Size`;
for `width, height \u2265 1` it succeeds for every oracle stream (hence for
every seed): neither the seed-island placement nor any internal
`BridgeLine::new` call can fail. -/
theorem C8_generate_error_iff_zero_dimension (width height : Nat) (rng : Rng) :
    (width = 0 ∨ height = 0 → HashiGrid.generate_with_seed width height rng = .error .Size) ∧
    (1 ≤ width → 1 ≤ height →
      ∃ g, HashiGrid.generate_with_seed width height rng = .ok g) := by
  constructor
  · intro h
    unfold HashiGrid.generate_with_seed HashiGrid._generate HashiGrid.new
    rw [if_pos h]
  · intro hw hh
    unfold HashiGrid.generate_with_seed HashiGrid._generate
    have hnew : HashiGrid.new width height =
        .ok { width := width, height := height, islands := [], bridges := [] } := by
      unfold HashiGrid.new
      rw [if_neg (by omega)]
    rw [hnew]
    simp only []
    rw [first_island_ok width height hw hh rng]
    obtain ⟨gr, hgr⟩ := growthLoop_ok (numIslands width height) width height
      (numIslands width height * 100)
      (({ width := width, height := height, islands := [], bridges := [] } :
          HashiGrid).add_island
        { x := (randomRange 0 width rng).1,
          y := (randomRange 0 height (randomRange 0 width rng).2).1 }).1
      (randomRange 0 height (randomRange 0 width rng).2).2
    simp only [hgr]
    obtain ⟨gr2, hgr2⟩ := loopEdgeIslands_ok width height
      (gr.1.islands.map Prod.fst) gr.1 gr.2
    simp only [hgr2]
    exact ⟨_, rfl⟩



/-- Witness for C8 at concrete inputs: a zero-width call fails with `Size`,
and the 1-by-1 call with the zero oracle succeeds. -/
theorem C8_generate_error_iff_zero_dimension_witness :
    HashiGrid.generate_with_seed 0 5 zeroRng = .error .Size ∧
    (∃ g, HashiGrid.generate_with_seed 1 1 zeroRng = .ok g) :=
  ⟨(C8_generate_error_iff_zero_dimension 0 5 zeroRng).1 (Or.inl rfl),
    (C8_generate_error_iff_zero_dimension 1 1 zeroRng).2 (by omega) (by omega)⟩

/-- A draw from a width-1 range is always 0. -/
theorem randomRange_zero_one (r : Rng) : (randomRange 0 1 r).1 = 0 := by
  simp [randomRange, Nat.mod_one]

/-- On a 1-by-1 board no direction has room: every proposal is rejected
without drawing. -/
theorem propose_1x1_none (d : Nat) (r : Rng) :
    proposePosition 1 1 { x := 0, y := 0 } d r = (none, r) := by
  unfold proposePosition
  by_cases h0 : d = 0
  · rw [if_pos h0, if_pos rfl]
  · rw [if_neg h0]
    by_cases h1 : d = 1
    · rw [if_pos h1, if_pos (by omega)]
    · rw [if_neg h1]
      by_cases h2 : d = 2
      · rw [if_pos h2, if_pos rfl]
      · rw [if_neg h2, if_pos (by omega)]

/-- Any indexed selection from the singleton key list yields the origin. -/
theorem getD_keys_one (n : Nat) :
    (oneByOneGrid.islands.map Prod.fst).getD n { x := 0, y := 0 } = { x := 0, y := 0 } := by
  cases n <;> rfl

/-- On a 1-by-1 board the growth iteration leaves the grid unchanged and
consumes exactly the two selection draws. -/
theorem growthBody_1x1 (r : Rng) :
    growthBody 1 1 oneByOneGrid r =
      .ok (oneByOneGrid, (randomRange 0 4 (randomRange 0 1 r).2).2) := by
  simp only [growthBody]
  rw [show (oneByOneGrid.islands.map Prod.fst).length = 1 from rfl]
  rw [getD_keys_one, propose_1x1_none]

/-- On a 1-by-1 board the whole growth loop leaves the grid unchanged. -/
theorem growthLoop_1x1 (num : Nat) :
    ∀ (fuel : Nat) (r : Rng), ∃ r2,
      growthLoop num 1 1 fuel oneByOneGrid r = .ok (oneByOneGrid, r2) := by
  intro fuel
  induction fuel with
  | zero => intro r; exact ⟨r, rfl⟩
  | succ n ih =>
    intro r
    unfold growthLoop
    by_cases hlen : oneByOneGrid.islands.length < num
    · rw [if_pos hlen, growthBody_1x1]
      exact ih _
    · rw [if_neg hlen]
      exact ⟨r, rfl⟩

/-- On a 1-by-1 board no direction holds another island. -/
theorem nearestIsland_1x1 (d : Nat) :
    nearestIsland oneByOneGrid.islands 1 1 { x := 0, y := 0 } d = none := by
  unfold nearestIsland
  by_cases h0 : d = 0
  · rw [if_pos h0]; rfl
  · rw [if_neg h0]
    by_cases h1 : d = 1
    · rw [if_pos h1]; rfl
    · rw [if_neg h1]
      by_cases h2 : d = 2
      · rw [if_pos h2]; rfl
      · rw [if_neg h2]; rfl

/-- On a 1-by-1 board the loop-edge pass leaves the grid unchanged. -/
theorem loopEdgeDirs_1x1 (ds : List Nat) (r : Rng) :
    loopEdgeDirs 1 1 { x := 0, y := 0 } ds oneByOneGrid r =
      .ok (oneByOneGrid, r) := by
  induction ds with
  | nil => rfl
  | cons d rest ih =>
    unfold loopEdgeDirs loopEdgeDir
    rw [nearestIsland_1x1]
    exact ih

/-- For every oracle stream (hence every seed), generating a 1-by-1 puzzle
yields the single island `(0,0)` with no bridges and the sentinel
`required_bridges = 0`. -/
theorem generate_one_one (rng : Rng) :
    HashiGrid.generate_with_seed 1 1 rng = .ok oneByOneGrid := by
  unfold HashiGrid.generate_with_seed
  simp only [HashiGrid._generate]
  rw [show HashiGrid.new 1 1 = .ok { width := 1, height := 1, islands := [], bridges := [] } from rfl]
  simp only []
  rw [randomRange_zero_one, randomRange_zero_one]
  rw [show (({ width := 1, height := 1, islands := [], bridges := [] } :
      HashiGrid).add_island { x := 0, y := 0 }) = (oneByOneGrid, .ok ()) from rfl]
  simp only []
  obtain ⟨r2, hr2⟩ := growthLoop_1x1 (numIslands 1 1) (numIslands 1 1 * 100)
    (randomRange 0 1 (randomRange 0 1 rng).2).2
  rw [hr2]
  simp only []
  rw [show oneByOneGrid.islands.map Prod.fst = [{ x := 0, y := 0 }] from rfl]
  rw [show loopEdgeIslands 1 1 [{ x := 0, y := 0 }] oneByOneGrid r2 =
    .ok (oneByOneGrid, r2) from by
      unfold loopEdgeIslands
      rw [loopEdgeDirs_1x1]
      rfl]
  rfl

/-- Unfolding of the finalization step's island map. -/
theorem finalize_islands (g : HashiGrid) :
    (finalize g).islands = g.islands.map (fun pi =>
      (pi.1, { required_bridges := inlineBridgeCount g.bridges pi.1 })) := rfl

/-- Finalization does not touch the bridge map. -/
theorem finalize_bridges (g : HashiGrid) : (finalize g).bridges = g.bridges := rfl

/-- After finalization every island's requirement equals its incident
weight. -/
theorem finalize_spec (g : HashiGrid) :
    ∀ pi ∈ (finalize g).islands,
      pi.2.required_bridges = inlineBridgeCount (finalize g).bridges pi.1 := by
  intro pi hpi
  rw [finalize_islands] at hpi
  obtain ⟨q, hq, rfl⟩ := List.mem_map.mp hpi
  rfl

/-- A successful generation always returns a finalized grid. -/
theorem generate_ok_finalize {w h : Nat} {rng : Rng} {g : HashiGrid}
    (hok : HashiGrid._generate w h rng = .ok g) : ∃ g0, g = finalize g0 := by
  simp only [HashiGrid._generate] at hok
  split at hok
  · exact Except.noConfusion hok
  · split at hok
    · exact Except.noConfusion hok
    · split at hok
      · exact Except.noConfusion hok
      · split at hok
        · exact Except.noConfusion hok
        · exact ⟨_, (Except.ok.inj hok).symm⟩

/-- C5 (amended): in every successfully generated grid, each island's
`required_bridges` equals the sum of its incident bridge weights as
finalized in the last generation step; it is therefore zero exactly for an
island with no incident bridge, which does occur (1-by-1 grids). -/
theorem C5_finalized_requirements_match_weights (w h : Nat) (rng : Rng) (g : HashiGrid)
    (hok : HashiGrid.generate_with_seed w h rng = .ok g) :
    ∀ pi ∈ g.islands, pi.2.required_bridges = inlineBridgeCount g.bridges pi.1 := by
  obtain ⟨g0, rfl⟩ := generate_ok_finalize hok
  exact finalize_spec g0

/-- C5 counterexample: at `width = height = 1` (any seed; the zero oracle
shown), the generated grid ships an island with the uncapped sentinel
`required_bridges == 0`. -/
theorem C5_counterexample_one_by_one_sentinel :
    HashiGrid.generate_with_seed 1 1 zeroRng = .ok oneByOneGrid ∧
      allRequiredNonzero oneByOneGrid = false :=
  ⟨generate_one_one zeroRng, by decide⟩

/-- Witness for C5 (amended) on the concrete 1-by-1 generated grid. -/
theorem C5_finalized_requirements_match_weights_witness :
    ({ required_bridges := 0 } : Island).required_bridges =
      inlineBridgeCount oneByOneGrid.bridges { x := 0, y := 0 } :=
  C5_finalized_requirements_match_weights 1 1 zeroRng oneByOneGrid (generate_one_one zeroRng)
    ({ x := 0, y := 0 }, { required_bridges := 0 }) (by decide)


/-- A freshly constructed grid is empty. -/
theorem new_ok_islands {w h : Nat} {g : HashiGrid}
    (hok : HashiGrid.new w h = .ok g) : g.islands = [] ∧ g.bridges = [] := by
  unfold HashiGrid.new at hok
  split at hok
  · exact Except.noConfusion hok
  · cases Except.ok.inj hok
    exact ⟨rfl, rfl⟩

/-- Island placement grows the island map by at most one entry. -/
theorem add_island_length (g : HashiGrid) (p : Position) :
    ((g.add_island p).1).islands.length ≤ g.islands.length + 1 := by
  unfold HashiGrid.add_island
  split
  · exact Nat.le_succ _
  · exact length_insertSorted Position.ltb p { required_bridges := 0 } g.islands

/-- After the seed island the count is within any loop bound. -/
theorem add_island_from_empty_le {g : HashiGrid} (h : g.islands = [])
    (p : Position) (num : Nat) :
    ((g.add_island p).1).islands.length ≤ max num 1 := by
  have hle := add_island_length g p
  rw [h] at hle
  simp at hle
  omega

/-- One growth iteration adds at most one island. -/
theorem growthBody_length {w h : Nat} {g : HashiGrid} {r : Rng} {gr : HashiGrid × Rng}
    (hok : growthBody w h g r = .ok gr) :
    gr.1.islands.length ≤ g.islands.length + 1 := by
  simp only [growthBody] at hok
  split at hok
  · rw [← Except.ok.inj hok]
    exact Nat.le_succ _
  · split at hok
    · rw [← Except.ok.inj hok]
      exact Nat.le_succ _
    · split at hok
      · exact Except.noConfusion hok
      · split at hok
        · rw [← Except.ok.inj hok]
          show ((((g.add_island _).1).add_bridge _).1).islands.length ≤
            g.islands.length + 1
          rw [add_bridge_islands]
          exact add_island_length g _
        · rw [← Except.ok.inj hok]
          show (mapRemove ((g.add_island _).1).islands _).length ≤
            g.islands.length + 1
          exact Nat.le_trans (List.Sublist.length_le (List.eraseP_sublist _))
            (add_island_length g _)

/-- The growth loop never exceeds `max num 1` islands: it re-checks the
target before each iteration and each iteration adds at most one. -/
theorem growthLoop_length (num w h : Nat) :
    ∀ (fuel : Nat) (g : HashiGrid) (r : Rng) (gr : HashiGrid × Rng),
      growthLoop num w h fuel g r = .ok gr →
      g.islands.length ≤ max num 1 → gr.1.islands.length ≤ max num 1 := by
  intro fuel
  induction fuel with
  | zero =>
    intro g r gr hok hg
    rw [← Except.ok.inj hok]
    exact hg
  | succ n ih =>
    intro g r gr hok hg
    unfold growthLoop at hok
    by_cases hlen : g.islands.length < num
    · rw [if_pos hlen] at hok
      cases hb : growthBody w h g r with
      | error e =>
        rw [hb] at hok
        exact Except.noConfusion hok
      | ok gr1 =>
        rw [hb] at hok
        refine ih gr1.1 gr1.2 gr hok ?_
        have := growthBody_length hb
        omega
    · rw [if_neg hlen] at hok
      rw [← Except.ok.inj hok]
      exact hg

/-- One direction of the loop-edge pass does not change the island map. -/
theorem loopEdgeDir_islands {w h : Nat} {pos : Position} {d : Nat} {g : HashiGrid}
    {r : Rng} {gr : HashiGrid × Rng}
    (hok : loopEdgeDir w h pos d g r = .ok gr) : gr.1.islands = g.islands := by
  simp only [loopEdgeDir] at hok
  split at hok
  · rw [← Except.ok.inj hok]
  · by_cases hf : (randBool r).1 = true
    · rw [if_pos hf] at hok
      rw [← Except.ok.inj hok]
    · rw [if_neg hf] at hok
      split at hok
      · exact Except.noConfusion hok
      · rw [← Except.ok.inj hok]
        exact add_bridge_islands g _

/-- The per-island loop-edge pass does not change the island map. -/
theorem loopEdgeDirs_islands {w h : Nat} {pos : Position} :
    ∀ {ds : List Nat} {g : HashiGrid} {r : Rng} {gr : HashiGrid × Rng},
      loopEdgeDirs w h pos ds g r = .ok gr → gr.1.islands = g.islands := by
  intro ds
  induction ds with
  | nil =>
    intro g r gr hok
    rw [← Except.ok.inj hok]
  | cons d rest ih =>
    intro g r gr hok
    unfold loopEdgeDirs at hok
    cases hd : loopEdgeDir w h pos d g r with
    | error e =>
      rw [hd] at hok
      exact Except.noConfusion hok
    | ok gr1 =>
      rw [hd] at hok
      rw [ih hok, loopEdgeDir_islands hd]

/-- The loop-edge pass does not change the island map. -/
theorem loopEdgeIslands_islands {w h : Nat} :
    ∀ {ps : List Position} {g : HashiGrid} {r : Rng} {gr : HashiGrid × Rng},
      loopEdgeIslands w h ps g r = .ok gr → gr.1.islands = g.islands := by
  intro ps
  induction ps with
  | nil =>
    intro g r gr hok
    rw [← Except.ok.inj hok]
  | cons p rest ih =>
    intro g r gr hok
    unfold loopEdgeIslands at hok
    cases hd : loopEdgeDirs w h p [0, 1, 2, 3] g r with
    | error e =>
      rw [hd] at hok
      exact Except.noConfusion hok
    | ok gr1 =>
      rw [hd] at hok
      rw [ih hok, loopEdgeDirs_islands hd]

/-- Folded bridge calls do not change the island map. -/
theorem addBridgeSeq_islands (g : HashiGrid) :
    ∀ lines : List BridgeLine, (addBridgeSeq g lines).islands = g.islands := by
  intro lines
  induction lines generalizing g with
  | nil => rfl
  | cons l rest ih =>
    unfold addBridgeSeq
    rw [ih, add_bridge_islands]

/-- Finalization does not change the island count. -/
theorem finalize_length (g : HashiGrid) :
    (finalize g).islands.length = g.islands.length := by
  unfold finalize
  exact List.length_map _ _

/-- A generated grid holds at most `max num_islands 1` islands, for the
truncated `num_islands` the code computes. -/
theorem generate_ok_length {w h : Nat} {rng : Rng} {g : HashiGrid}
    (hok : HashiGrid._generate w h rng = .ok g) :
    g.islands.length ≤ max (numIslands w h) 1 := by
  simp only [HashiGrid._generate] at hok
  split at hok
  · exact Except.noConfusion hok
  · rename_i grid hnew
    split at hok
    · exact Except.noConfusion hok
    · split at hok
      · exact Except.noConfusion hok
      · rename_i gr hgrow
        split at hok
        · exact Except.noConfusion hok
        · rename_i gr2 hloop
          rw [← Except.ok.inj hok]
          rw [finalize_length, addBridgeSeq_islands, loopEdgeIslands_islands hloop]
          exact growthLoop_length (numIslands w h) w h (numIslands w h * 100) _ _ gr
            hgrow (add_island_from_empty_le (new_ok_islands hnew).1 _ _)

/-- C6 (amended): the generator's target island count is
`max(8, floor(width*height/5)) mod 256` — the `as u8` cast truncates — and
the generated grid still contains at most `max(8, floor(width*height/5))`
islands, since the truncated target only lowers the bound and a lone seed
island stays below it. -/
theorem C6_island_count_bound (w h : Nat) (rng : Rng) (g : HashiGrid)
    (hok : HashiGrid.generate_with_seed w h rng = .ok g) :
    numIslands w h = max 8 (w * h / 5) % 256 ∧
      g.islands.length ≤ max 8 (w * h / 5) := by
  constructor
  · unfold numIslands
    rw [Nat.max_comm]
  · have h1 := generate_ok_length hok
    have h2 : numIslands w h ≤ max 8 (w * h / 5) := by
      unfold numIslands
      omega
    omega

/-- C6 counterexample: at `width = 16`, `height = 80` the code's island
target is `((16*80/5).max(8)) as u8 = 0`, not `max(8, 16*80/5) = 256`. -/
theorem C6_counterexample_u8_truncation :
    numIslands 16 80 = 0 ∧ max 8 (16 * 80 / 5) = 256 ∧ (0 : Nat) ≠ 256 :=
  ⟨rfl, rfl, by decide⟩

/-- Witness for C6 (amended) on the concrete 1-by-1 generated grid. -/
theorem C6_island_count_bound_witness :
    numIslands 1 1 = max 8 (1 * 1 / 5) % 256 ∧
      oneByOneGrid.islands.length ≤ max 8 (1 * 1 / 5) :=
  C6_island_count_bound 1 1 zeroRng oneByOneGrid (generate_one_one zeroRng)


/-- A line never intersects itself (same direction). -/
theorem intersects_self (a : BridgeLine) : a.intersects a = none := by
  unfold BridgeLine.intersects
  rw [if_pos rfl]

/-- The intersection scan is symmetric in its two lines. -/
theorem intersects_comm (a b : BridgeLine) : a.intersects b = b.intersects a := by
  obtain ⟨as, ae, ad⟩ := a
  obtain ⟨bs, be, bd⟩ := b
  cases ad <;> cases bd <;> rfl

/-- Unfolding of the pairwise check over a head element. -/
theorem pairwiseB_cons (f : α → α → Bool) (x : α) (xs : List α) :
    pairwiseB f (x :: xs) = (xs.all (f x) && pairwiseB f xs) := rfl

/-- Any two members of a pairwise-checked list are related one way or the
other, or equal. -/
theorem pairwiseB_mem_rel {f : α → α → Bool} {l : List α} (h : pairwiseB f l = true)
    {a b : α} (ha : a ∈ l) (hb : b ∈ l) :
    f a b = true ∨ f b a = true ∨ a = b := by
  induction l with
  | nil => cases ha
  | cons x xs ih =>
    rw [pairwiseB_cons, band_true_iff] at h
    rcases List.mem_cons.mp ha with rfl | ha2 <;> rcases List.mem_cons.mp hb with rfl | hb2
    · exact Or.inr (Or.inr rfl)
    · exact Or.inl (List.all_eq_true.mp h.1 b hb2)
    · exact Or.inr (Or.inl (List.all_eq_true.mp h.1 a ha2))
    · exact ih h.2 ha2 hb2

/-- Insertion preserves a pairwise check when the new entry relates to every
old entry both ways. -/
theorem pairwiseB_insertSorted [DecidableEq κ] (lt : κ → κ → Bool)
    (f : (κ × α) → (κ × α) → Bool) (k : κ) (v : α) {l : List (κ × α)}
    (hp : pairwiseB f l = true)
    (hx : ∀ e ∈ l, f (k, v) e = true ∧ f e (k, v) = true) :
    pairwiseB f (insertSorted lt k v l) = true := by
  induction l with
  | nil => rfl
  | cons e rest ih =>
    rw [pairwiseB_cons, band_true_iff] at hp
    unfold insertSorted
    by_cases h1 : lt k e.1 = true
    · rw [if_pos h1, pairwiseB_cons, band_true_iff]
      refine ⟨?_, by rw [pairwiseB_cons, band_true_iff]; exact hp⟩
      rw [List.all_eq_true]
      intro x hx2
      rcases List.mem_cons.mp hx2 with rfl | hx3
      · exact (hx x (List.mem_cons_self _ _)).1
      · exact (hx x (List.mem_cons_of_mem _ hx3)).1
    · rw [if_neg h1]
      by_cases h2 : e.1 = k
      · rw [if_pos h2, pairwiseB_cons, band_true_iff]
        refine ⟨?_, hp.2⟩
        rw [List.all_eq_true]
        intro x hx2
        exact (hx x (List.mem_cons_of_mem _ hx2)).1
      · rw [if_neg h2, pairwiseB_cons, band_true_iff]
        refine ⟨?_, ih hp.2 (fun x hx2 => hx x (List.mem_cons_of_mem _ hx2))⟩
        rw [List.all_eq_true]
        intro x hx2
        rcases mem_insertSorted lt k v hx2 with rfl | hx3
        · exact (hx e (List.mem_cons_self _ _)).2
        · exact List.all_eq_true.mp hp.1 x hx3

/-- The no-island-crossing invariant, element-wise. -/
theorem noIslandCross_iff (g : HashiGrid) :
    noIslandCross g = true ↔
      ∀ bt ∈ g.bridges, ∀ pi ∈ g.islands,
        pi.1 = bt.1.start ∨ pi.1 = bt.1.stop ∨ bt.1.crosses pi.1 = false := by
  unfold noIslandCross
  simp only [List.all_eq_true, Bool.or_eq_true, decide_eq_true_eq, Bool.not_eq_true']
  constructor
  · intro h bt hbt pi hpi
    exact or_assoc.mp (h bt hbt pi hpi)
  · intro h bt hbt pi hpi
    exact or_assoc.mpr (h bt hbt pi hpi)

/-- A clean island-crossing scan means no third island lies on the line. -/
theorem firstCrossedIsland_none {g : HashiGrid} {line : BridgeLine}
    (h : g.firstCrossedIsland line = none) :
    ∀ pi ∈ g.islands,
      pi.1 = line.start ∨ pi.1 = line.stop ∨ line.crosses pi.1 = false := by
  unfold HashiGrid.firstCrossedIsland at h
  rw [Option.map_eq_none'] at h
  intro pi hpi
  have hp := List.find?_eq_none.mp h pi hpi
  by_cases h1 : pi.1 = line.start
  · exact Or.inl h1
  · by_cases h2 : pi.1 = line.stop
    · exact Or.inr (Or.inl h2)
    · refine Or.inr (Or.inr ?_)
      simp only [h1, h2, decide_False, decide_True, Bool.and_eq_true, decide_eq_true_eq,
        not_and, Bool.not_eq_true] at hp
      simpa [h1, h2] using hp

/-- A clean intersection scan means the line crosses no stored bridge. -/
theorem firstIntersection_none {g : HashiGrid} {line : BridgeLine}
    (h : g.firstIntersection line = none) :
    ∀ bt ∈ g.bridges, line.intersects bt.1 = none := by
  unfold HashiGrid.firstIntersection at h
  exact fun bt hbt => List.findSome?_eq_none_iff.mp h bt hbt

/-- A position accepted for an island is crossed by no stored bridge. -/
theorem can_add_island_ok_inv {g : HashiGrid} {p : Position} {u : Unit}
    (h : g.can_add_island p = .ok u) :
    ∀ bt ∈ g.bridges, bt.1.crosses p = false := by
  unfold HashiGrid.can_add_island at h
  split at h
  · exact Except.noConfusion h
  · split at h
    · exact Except.noConfusion h
    · split at h
      · exact Except.noConfusion h
      · rename_i hfind
        intro bt hbt
        have := List.find?_eq_none.mp hfind bt hbt
        exact Bool.not_eq_true _ ▸ this

/-- Island placement preserves both geometric invariants. -/
theorem add_island_GI (g : HashiGrid) (p : Position)
    (hni : noIslandCross g = true) (hnb : noBridgeCross g = true) :
    noIslandCross ((g.add_island p).1) = true ∧
      noBridgeCross ((g.add_island p).1) = true := by
  unfold HashiGrid.add_island
  split
  · exact ⟨hni, hnb⟩
  · rename_i u hcan
    constructor
    · rw [noIslandCross_iff]
      intro bt hbt pi hpi
      rcases mem_insertSorted Position.ltb p ({ required_bridges := 0 } : Island) hpi with rfl | hpi2
      · exact Or.inr (Or.inr (can_add_island_ok_inv hcan bt hbt))
      · exact (noIslandCross_iff g).mp hni bt hbt pi hpi2
    · exact hnb

/-- The rollback island removal preserves both geometric invariants. -/
theorem remove_island_GI (g : HashiGrid) (p : Position)
    (hni : noIslandCross g = true) (hnb : noBridgeCross g = true) :
    noIslandCross { g with islands := mapRemove g.islands p } = true ∧
      noBridgeCross { g with islands := mapRemove g.islands p } = true := by
  refine ⟨?_, hnb⟩
  rw [noIslandCross_iff]
  intro bt hbt pi hpi
  exact (noIslandCross_iff g).mp hni bt hbt pi ((List.eraseP_sublist _).subset hpi)

/-- A bridge call preserves both geometric invariants: a new `Single` passed
the crossing and intersection scans, and an upgrade keeps the line set. -/
theorem add_bridge_GI (g : HashiGrid) (line : BridgeLine)
    (hni : noIslandCross g = true) (hnb : noBridgeCross g = true) :
    noIslandCross ((g.add_bridge line).1) = true ∧
      noBridgeCross ((g.add_bridge line).1) = true := by
  cases hcb : g.can_bridge line with
  | error e =>
    rw [add_bridge_eq_error hcb]
    exact ⟨hni, hnb⟩
  | ok t =>
    rw [add_bridge_eq_ok hcb]
    cases t with
    | Single =>
      obtain ⟨hm, _, _, hcross, hinter⟩ := can_bridge_ok_single_inv hcb
      constructor
      · rw [noIslandCross_iff]
        intro bt hbt pi hpi
        rcases mem_insertSorted BridgeLine.ltb line BridgeType.Single hbt with rfl | hbt2
        · exact firstCrossedIsland_none hcross pi hpi
        · exact (noIslandCross_iff g).mp hni bt hbt2 pi hpi
      · show pairwiseB interFree (insertSorted BridgeLine.ltb line BridgeType.Single g.bridges) = true
        refine pairwiseB_insertSorted BridgeLine.ltb interFree line BridgeType.Single hnb ?_
        intro e he
        have hnone := firstIntersection_none hinter e he
        constructor
        · unfold interFree
          simp [hnone]
        · unfold interFree
          rw [intersects_comm]
          simp [hnone]
    | Double =>
      obtain ⟨hm, _, _⟩ := can_bridge_ok_double_inv hcb
      have hmem : (line, BridgeType.Single) ∈ g.bridges := mapGet_some_mem hm
      have hrel : ∀ e ∈ g.bridges, line.intersects e.1 = none := by
        intro e he
        rcases pairwiseB_mem_rel hnb hmem he with h1 | h1 | h1
        · unfold interFree at h1
          exact of_decide_eq_true h1
        · unfold interFree at h1
          rw [intersects_comm]
          exact of_decide_eq_true h1
        · rw [← h1]
          exact intersects_self line
      constructor
      · rw [noIslandCross_iff]
        intro bt hbt pi hpi
        rcases mem_insertSorted BridgeLine.ltb line BridgeType.Double hbt with rfl | hbt2
        · exact (noIslandCross_iff g).mp hni (line, BridgeType.Single) hmem pi hpi
        · exact (noIslandCross_iff g).mp hni bt hbt2 pi hpi
      · show pairwiseB interFree (insertSorted BridgeLine.ltb line BridgeType.Double g.bridges) = true
        refine pairwiseB_insertSorted BridgeLine.ltb interFree line BridgeType.Double hnb ?_
        intro e he
        constructor
        · unfold interFree
          simp [hrel e he]
        · unfold interFree
          rw [intersects_comm]
          simp [hrel e he]

/-- One growth iteration preserves both geometric invariants. -/
theorem growthBody_GI {w h : Nat} {g : HashiGrid} {r : Rng} {gr : HashiGrid × Rng}
    (hok : growthBody w h g r = .ok gr)
    (hni : noIslandCross g = true) (hnb : noBridgeCross g = true) :
    noIslandCross gr.1 = true ∧ noBridgeCross gr.1 = true := by
  simp only [growthBody] at hok
  split at hok
  · rw [← Except.ok.inj hok]
    exact ⟨hni, hnb⟩
  · split at hok
    · rw [← Except.ok.inj hok]
      exact ⟨hni, hnb⟩
    · rename_i proposed _ _ _ _
      split at hok
      · exact Except.noConfusion hok
      · have hgi1 := add_island_GI g proposed hni hnb
        split at hok
        · rw [← Except.ok.inj hok]
          exact add_bridge_GI _ _ hgi1.1 hgi1.2
        · rw [← Except.ok.inj hok]
          exact remove_island_GI _ _ hgi1.1 hgi1.2

/-- The growth loop preserves both geometric invariants. -/
theorem growthLoop_GI (num w h : Nat) :
    ∀ (fuel : Nat) (g : HashiGrid) (r : Rng) (gr : HashiGrid × Rng),
      growthLoop num w h fuel g r = .ok gr →
      noIslandCross g = true → noBridgeCross g = true →
      noIslandCross gr.1 = true ∧ noBridgeCross gr.1 = true := by
  intro fuel
  induction fuel with
  | zero =>
    intro g r gr hok hni hnb
    rw [← Except.ok.inj hok]
    exact ⟨hni, hnb⟩
  | succ n ih =>
    intro g r gr hok hni hnb
    unfold growthLoop at hok
    by_cases hlen : g.islands.length < num
    · rw [if_pos hlen] at hok
      cases hb : growthBody w h g r with
      | error e =>
        rw [hb] at hok
        exact Except.noConfusion hok
      | ok gr1 =>
        rw [hb] at hok
        have hgi := growthBody_GI hb hni hnb
        exact ih gr1.1 gr1.2 gr hok hgi.1 hgi.2
    · rw [if_neg hlen] at hok
      rw [← Except.ok.inj hok]
      exact ⟨hni, hnb⟩

/-- One direction of the loop-edge pass preserves both geometric
invariants. -/
theorem loopEdgeDir_GI {w h : Nat} {pos : Position} {d : Nat} {g : HashiGrid}
    {r : Rng} {gr : HashiGrid × Rng}
    (hok : loopEdgeDir w h pos d g r = .ok gr)
    (hni : noIslandCross g = true) (hnb : noBridgeCross g = true) :
    noIslandCross gr.1 = true ∧ noBridgeCross gr.1 = true := by
  simp only [loopEdgeDir] at hok
  split at hok
  · rw [← Except.ok.inj hok]
    exact ⟨hni, hnb⟩
  · by_cases hf : (randBool r).1 = true
    · rw [if_pos hf] at hok
      rw [← Except.ok.inj hok]
      exact ⟨hni, hnb⟩
    · rw [if_neg hf] at hok
      split at hok
      · exact Except.noConfusion hok
      · rw [← Except.ok.inj hok]
        exact add_bridge_GI g _ hni hnb

/-- The per-island loop-edge pass preserves both geometric invariants. -/
theorem loopEdgeDirs_GI {w h : Nat} {pos : Position} :
    ∀ {ds : List Nat} {g : HashiGrid} {r : Rng} {gr : HashiGrid × Rng},
      loopEdgeDirs w h pos ds g r = .ok gr →
      noIslandCross g = true → noBridgeCross g = true →
      noIslandCross gr.1 = true ∧ noBridgeCross gr.1 = true := by
  intro ds
  induction ds with
  | nil =>
    intro g r gr hok hni hnb
    rw [← Except.ok.inj hok]
    exact ⟨hni, hnb⟩
  | cons d rest ih =>
    intro g r gr hok hni hnb
    unfold loopEdgeDirs at hok
    cases hd : loopEdgeDir w h pos d g r with
    | error e =>
      rw [hd] at hok
      exact Except.noConfusion hok
    | ok gr1 =>
      rw [hd] at hok
      have hgi := loopEdgeDir_GI hd hni hnb
      exact ih hok hgi.1 hgi.2

/-- The loop-edge pass preserves both geometric invariants. -/
theorem loopEdgeIslands_GI {w h : Nat} :
    ∀ {ps : List Position} {g : HashiGrid} {r : Rng} {gr : HashiGrid × Rng},
      loopEdgeIslands w h ps g r = .ok gr →
      noIslandCross g = true → noBridgeCross g = true →
      noIslandCross gr.1 = true ∧ noBridgeCross gr.1 = true := by
  intro ps
  induction ps with
  | nil =>
    intro g r gr hok hni hnb
    rw [← Except.ok.inj hok]
    exact ⟨hni, hnb⟩
  | cons p rest ih =>
    intro g r gr hok hni hnb
    unfold loopEdgeIslands at hok
    cases hd : loopEdgeDirs w h p [0, 1, 2, 3] g r with
    | error e =>
      rw [hd] at hok
      exact Except.noConfusion hok
    | ok gr1 =>
      rw [hd] at hok
      have hgi := loopEdgeDirs_GI hd hni hnb
      exact ih hok hgi.1 hgi.2

/-- Folded bridge calls (the doubling pass) preserve both geometric
invariants. -/
theorem addBridgeSeq_GI (lines : List BridgeLine) (g : HashiGrid)
    (hni : noIslandCross g = true) (hnb : noBridgeCross g = true) :
    noIslandCross (addBridgeSeq g lines) = true ∧
      noBridgeCross (addBridgeSeq g lines) = true := by
  induction lines generalizing g with
  | nil => exact ⟨hni, hnb⟩
  | cons l rest ih =>
    unfold addBridgeSeq
    have hgi := add_bridge_GI g l hni hnb
    exact ih _ hgi.1 hgi.2

/-- Finalization preserves both geometric invariants. -/
theorem finalize_GI (g : HashiGrid)
    (hni : noIslandCross g = true) (hnb : noBridgeCross g = true) :
    noIslandCross (finalize g) = true ∧ noBridgeCross (finalize g) = true := by
  refine ⟨?_, hnb⟩
  rw [noIslandCross_iff]
  intro bt hbt pi hpi
  rw [finalize_islands] at hpi
  obtain ⟨q, hq, rfl⟩ := List.mem_map.mp hpi
  exact (noIslandCross_iff g).mp hni bt hbt q hq

/-- A grid with no bridges satisfies both geometric invariants. -/
theorem empty_bridges_GI {g : HashiGrid} (hb : g.bridges = []) :
    noIslandCross g = true ∧ noBridgeCross g = true := by
  constructor
  · unfold noIslandCross
    rw [hb]
    rfl
  · unfold noBridgeCross
    rw [hb]
    rfl

/-- C7: in every successfully generated grid, no bridge crosses an island
other than its own two endpoints, and no two stored bridges intersect
off-endpoint (by the code's `intersects`, which also rules shared endpoints
and parallels out) — the invariants survive the growth loop's speculative
`add_island` with rollback, the loop-edge pass, and the doubling pass. -/
theorem C7_generated_geometry_clean (w h : Nat) (rng : Rng) (g : HashiGrid)
    (hok : HashiGrid.generate_with_seed w h rng = .ok g) :
    noIslandCross g = true ∧ noBridgeCross g = true := by
  unfold HashiGrid.generate_with_seed at hok
  simp only [HashiGrid._generate] at hok
  split at hok
  · exact Except.noConfusion hok
  · rename_i grid hnew
    split at hok
    · exact Except.noConfusion hok
    · split at hok
      · exact Except.noConfusion hok
      · rename_i gr hgrow
        split at hok
        · exact Except.noConfusion hok
        · rename_i gr2 hloop
          rw [← Except.ok.inj hok]
          have h0 := empty_bridges_GI (new_ok_islands hnew).2
          have h1 := add_island_GI grid
            { x := (randomRange 0 w rng).1,
              y := (randomRange 0 h (randomRange 0 w rng).2).1 } h0.1 h0.2
          have h2 := growthLoop_GI (numIslands w h) w h (numIslands w h * 100)
            _ _ gr hgrow h1.1 h1.2
          have h3 := loopEdgeIslands_GI hloop h2.1 h2.2
          have h4 := addBridgeSeq_GI (collectDoubles gr2.1.bridges gr2.2).1 gr2.1
            h3.1 h3.2
          exact finalize_GI _ h4.1 h4.2

/-- Witness for C7 on the concrete 1-by-1 generated grid. -/
theorem C7_generated_geometry_clean_witness :
    noIslandCross oneByOneGrid = true ∧ noBridgeCross oneByOneGrid = true :=
  C7_generated_geometry_clean 1 1 zeroRng oneByOneGrid (generate_one_one zeroRng)


end Hashi
